import Mathlib

/-!
Shallow embedding of the documentation extractor `main` in
`src/python/docu.py` (lines 19-86).

Modelling conventions:
* An input line is a `List Char` holding the text of the line WITHOUT the
  trailing newline character; the Python iteration variable `line` is the
  body followed by one `'\n'`.  Every regular-expression operation of the
  source is hand-translated to a function on the body, with the effect of
  the trailing `'\n'` (patterns ending in `\n`, passthrough of the newline
  by `re.sub`) folded into the translation.
* Each `print` site of the loop becomes one `Emit` constructor; `render`
  produces the exact character sequence the `print` call writes to stdout
  (including newlines added by `print` itself and suppressed by `end=""`).
* `\s` of Python `re` is modelled by the six ASCII whitespace characters
  (the Unicode extension of `\s` is irrelevant to the ASCII claims).
* Greedy matching and backtracking of the concrete patterns were resolved
  by hand; each function documents the pattern it implements.
-/

/-- Python `\s` character class (ASCII part): space, tab, newline, carriage
return, vertical tab, form feed. -/
def pySpace (c : Char) : Bool :=
  c == ' ' || c == '\t' || c == '\n' || c == '\r' ||
  c == Char.ofNat 11 || c == Char.ofNat 12

/-- `[a-z]` character class. -/
def isLowerAZ (c : Char) : Bool := 'a' ≤ c && c ≤ 'z'

/-- `[a-zA-Z0-9]` character class. -/
def isAlnumAZ (c : Char) : Bool :=
  ('a' ≤ c && c ≤ 'z') || ('A' ≤ c && c ≤ 'Z') || ('0' ≤ c && c ≤ '9')

/-- The double-quote character, kept out of character literals. -/
def dq : Char := Char.ofNat 34

/-- The single-quote character. -/
def apos : Char := Char.ofNat 39

/-- The token `"""` used by all docstring patterns. -/
def trip : List Char := [dq, dq, dq]

/-- Is `"""` a substring (does a triple quote start at some index)? -/
def containsTriple : List Char → Bool
  | [] => false
  | c :: r => (c == dq && trip.tail.isPrefixOf r) || containsTriple r

/-- Index of the LAST occurrence of `"""` (start position), if any. -/
def lastTriple : List Char → Option Nat
  | [] => none
  | c :: r =>
    match lastTriple r with
    | some q => some (q + 1)
    | none => if c == dq && trip.tail.isPrefixOf r then some 0 else none

/-- The literate-comment marker `#'`. -/
def marker : List Char := ['#', apos]

/-- Does an occurrence of `#\x27` start at the head of the list? -/
def isMarkerHead : List Char → Bool
  | '#' :: c :: _ => c == apos
  | _ => false

/-- Does `#\x27` occur somewhere in the list? -/
def containsMarker : List Char → Bool
  | [] => false
  | l@(_ :: r) => isMarkerHead l || containsMarker r

/-- The text after the LAST occurrence of `#\x27` (meaningful only when
`containsMarker` holds; the recursion keeps the last match because
`re.sub(".*#\x27 ?", ...)` is greedy). -/
def afterLastMarker : List Char → List Char
  | [] => []
  | l@(_ :: r) =>
    if isMarkerHead l then
      if containsMarker r then afterLastMarker r else r.drop 1
    else afterLastMarker r

/-- Does `" - "` followed by at least one further character start at the
head?  Such an occurrence is usable as the separator of `.+ - (.+)`. -/
def isSepHead : List Char → Bool
  | ' ' :: '-' :: ' ' :: _ :: _ => true
  | _ => false

/-- Does a separator occurrence start somewhere in the list? -/
def containsSep : List Char → Bool
  | [] => false
  | l@(_ :: r) => isSepHead l || containsSep r

/-- Text after the LAST `" - "` that is followed by a nonempty tail
(the greedy `.+` of `re.sub(".+ - (.+)\n", ...)` selects the last
such separator). -/
def afterLastSep : List Char → List Char
  | [] => []
  | l@(_ :: r) =>
    if isSepHead l then
      if containsSep r then afterLastSep r else r.drop 2
    else afterLastSep r

/-- Drop one leading literal space if present (the ` ?` of `.*#' ?`). -/
def dropOneSpace (l : List Char) : List Char :=
  if l.head? == some ' ' then l.tail else l

/-! ## Line matchers (the `re.match` guards, which anchor at position 0) -/

/-- `re.match('^\x22\x22\x22([^\s].+)', line)`: three double quotes, a
non-whitespace character, then at least one more character. -/
def matchTitle (l : List Char) : Bool :=
  match l with
  | a :: b :: c :: d :: rest =>
    a == dq && b == dq && c == dq && !pySpace d && !rest.isEmpty
  | _ => false

/-- `re.match('^\x22\x22\x22', line)`: line starts with three double quotes. -/
def matchTripleStart (l : List Char) : Bool := trip.isPrefixOf l

/-- `re.match(".*20.+", line)`: the line contains `20` followed by at least
one further character. -/
def matchDate : List Char → Bool
  | '2' :: '0' :: _ :: _ => true
  | _ :: r => matchDate r
  | [] => false

/-- `re.match("^class.+", line)`: `class` then at least one character. -/
def matchClass (l : List Char) : Bool :=
  "class".toList.isPrefixOf l && !(l.drop 5).isEmpty

/-- `re.match(' +\x22\x22\x22.+\x22\x22\x22', line)`: one or more leading
spaces, `"""`, then at least one character followed by a further `"""`. -/
def matchInlineDoc (l : List Char) : Bool :=
  let n := (l.takeWhile (· == ' ')).length
  1 ≤ n && trip.isPrefixOf (l.drop n) &&
    containsTriple ((l.drop (n + 3)).drop 1)

/-- `re.match('^     ?def', line)`: four or five leading spaces then `def`. -/
def matchDef (l : List Char) : Bool :=
  "    def".toList.isPrefixOf l || "     def".toList.isPrefixOf l

/-- `re.match(' {7,9}\x22\x22\x22', line)`: exactly 7 to 9 leading spaces
then `"""`. -/
def matchOpen79 (l : List Char) : Bool :=
  let n := (l.takeWhile (· == ' ')).length
  (7 ≤ n && n ≤ 9) && trip.isPrefixOf (l.drop n)

/-- `re.match(' {7,9}\x22\x22\x22(.+)\x22\x22\x22', line)`: 7 to 9 leading
spaces, `"""`, at least one character, then a closing `"""`. -/
def matchInline79 (l : List Char) : Bool :=
  let n := (l.takeWhile (· == ' ')).length
  (7 ≤ n && n ≤ 9) && trip.isPrefixOf (l.drop n) &&
    containsTriple ((l.drop (n + 3)).drop 1)

/-- `re.match(" +Arguments:", line)`. -/
def matchArgsHeader (l : List Char) : Bool :=
  let n := (l.takeWhile (· == ' ')).length
  1 ≤ n && "Arguments:".toList.isPrefixOf (l.drop n)

/-- `re.match(" {9,12}[a-z]+", line)`: 9 to 12 leading literal spaces then a
lowercase letter. -/
def matchArg1 (l : List Char) : Bool :=
  let n := (l.takeWhile (· == ' ')).length
  9 ≤ n && n ≤ 12 &&
    (match l.drop n with
     | c :: _ => isLowerAZ c
     | [] => false)

/-- `re.match("\s{9,13}[a-zA-Z0-9]+\s+-\+.+", line)`: 9 to 13 whitespace
characters, an alphanumeric run, whitespace, then literally `-+` and at
least one further character (`\+` is an escaped plus sign). -/
def matchArg2 (l : List Char) : Bool :=
  let m := (l.takeWhile pySpace).length
  9 ≤ m && m ≤ 13 &&
    (let r := l.drop m
     let an := r.takeWhile isAlnumAZ
     !an.isEmpty &&
       (let r2 := r.drop an.length
        let sp2 := r2.takeWhile pySpace
        !sp2.isEmpty &&
          (match r2.drop sp2.length with
           | '-' :: '+' :: _ :: _ => true
           | _ => false)))

/-- `re.match(' +\x22\x22\x22.*', line)`: leading spaces then `"""`. -/
def matchDocClose (l : List Char) : Bool :=
  let n := (l.takeWhile (· == ' ')).length
  1 ≤ n && trip.isPrefixOf (l.drop n)

/-- `re.match("\s*#' ?", line)`: optional whitespace then the marker `#'`. -/
def matchLiterate (l : List Char) : Bool :=
  marker.isPrefixOf (l.dropWhile pySpace)

/-! ## Substitutions (the `re.sub` calls)

Each function takes the line body and returns the exact result of the
Python substitution applied to `body ++ "\n"`; when the pattern consumed
the newline the result carries no `'\n'`, and when the pattern cannot
match, the Python convention of returning the whole line (including its
newline) is reproduced by `body ++ ['\n']`. -/

/-- `re.sub('\x22\x22\x22 *', '', line)`: every occurrence of `"""` plus
following literal spaces is removed (the trailing newline survives and is
appended by the emit renderer). -/
def titleAux : Nat → List Char → List Char
  | 0, l => l
  | _ + 1, [] => []
  | fuel + 1, c :: r =>
    if c == dq && trip.tail.isPrefixOf r then
      titleAux fuel ((r.drop 2).dropWhile (· == ' '))
    else c :: titleAux fuel r

def titleSub (l : List Char) : List Char := titleAux (l.length + 1) l

/-- `re.sub("^class +([^:\s\n]+).*\n", "\1", line)`: when the anchored
pattern matches, the captured identifier token; otherwise the whole line. -/
def classSub (l : List Char) : List Char :=
  if "class".toList.isPrefixOf l then
    let r := l.drop 5
    let sp := r.takeWhile (· == ' ')
    let r2 := r.dropWhile (· == ' ')
    let tok := r2.takeWhile (fun c => !(c == ':' || pySpace c))
    if !sp.isEmpty && !tok.isEmpty then tok else l ++ ['\n']
  else l ++ ['\n']

/-- `re.sub("^ +def +([^:\n]+).*\n", "\1", line)`: leading spaces, `def`,
spaces, then the greedy group of non-colon characters; when the group would
be empty the engine backtracks one space of ` +` into the group. -/
def defSub (l : List Char) : List Char :=
  let sp := l.takeWhile (· == ' ')
  let r := l.dropWhile (· == ' ')
  if !sp.isEmpty && "def".toList.isPrefixOf r then
    let r2 := r.drop 3
    let sp2 := r2.takeWhile (· == ' ')
    let r3 := r2.dropWhile (· == ' ')
    if sp2.isEmpty then l ++ ['\n']
    else
      let tok := r3.takeWhile (· != ':')
      if !tok.isEmpty then tok
      else if 2 ≤ sp2.length then [' ']
      else l ++ ['\n']
  else l ++ ['\n']

/-- Worker for `re.sub(' +\x22\x22\x22(.+)\x22\x22\x22', '\1', line)`:
left-to-right scan; at a space that heads a space run followed by `"""`
with a closing `"""` at least one character later, the whole match is
replaced by the greedy group (up to the LAST closing `"""`), and scanning
continues after the match.  `fuel` only bounds the recursion; every step
consumes at least one character, so `l.length + 1` is always enough. -/
def inlineAux : Nat → List Char → List Char
  | 0, l => l
  | _ + 1, [] => []
  | fuel + 1, c :: r =>
    if c == ' ' then
      let r2 := (c :: r).dropWhile (· == ' ')
      if trip.isPrefixOf r2 then
        let t := r2.drop 3
        match lastTriple t with
        | some q =>
          if 1 ≤ q then t.take q ++ inlineAux fuel (t.drop (q + 3))
          else c :: inlineAux fuel r
        | none => c :: inlineAux fuel r
      else c :: inlineAux fuel r
    else c :: inlineAux fuel r

/-- `re.sub(' +\x22\x22\x22(.+)\x22\x22\x22', '\1', line)` on the body. -/
def inlineDocSub (l : List Char) : List Char := inlineAux (l.length + 1) l

/-- `re.sub("^\s+([^\s]+) +- .+\n", "\1", line)`: whitespace, the name
token, literal spaces, `- `, then a nonempty rest; on success the name,
otherwise the whole line. -/
def argNameSub (l : List Char) : List Char :=
  let sp := l.takeWhile pySpace
  let r := l.dropWhile pySpace
  let name := r.takeWhile (fun c => !pySpace c)
  let r2 := r.drop name.length
  let sp2 := r2.takeWhile (· == ' ')
  let r3 := r2.dropWhile (· == ' ')
  if sp.isEmpty || name.isEmpty || sp2.isEmpty then l ++ ['\n']
  else
    match r3 with
    | '-' :: ' ' :: _ :: _ => name
    | _ => l ++ ['\n']

/-- `re.sub(".+ - (.+)\n", "\1", line)`: the text after the LAST `" - "`
(at index at least 1) that leaves a nonempty group; the newline is part of
the match, so a successful result carries no `'\n'`. -/
def argDescSub (l : List Char) : List Char :=
  match l with
  | c :: rest =>
    if containsSep rest then afterLastSep rest else c :: rest ++ ['\n']
  | [] => ['\n']

/-- `re.sub(".+ - (.+)", "\1", line)` (second argument-line variant): same
separator search, but the pattern stops before the newline, which therefore
survives inside the substituted result. -/
def argDesc2Sub (l : List Char) : List Char :=
  match l with
  | c :: rest =>
    if containsSep rest then afterLastSep rest ++ ['\n']
    else c :: rest ++ ['\n']
  | [] => ['\n']

/-- Inner search for `re.sub(".+ ([\s]+) .+", "\1", line)`: at a literal
space at index `j`, the greedy whitespace group `k` characters long must be
followed by a literal space and at least one further character. -/
def wsFindK (l : List Char) (j : Nat) : Option Nat :=
  let run := (l.drop (j + 1)).takeWhile pySpace
  (List.range run.length).reverse.findSome? fun k =>
    if 1 ≤ k && l.get? (j + 1 + k) == some ' ' && j + k + 2 < l.length then
      some k
    else none

/-- `re.sub(".+ ([\s]+) .+", "\1", line)`: the captured group is itself
whitespace; the greedy leading `.+` selects the LAST feasible position. -/
def wsNameSub (l : List Char) : List Char :=
  match (List.range l.length).reverse.findSome? (fun j =>
      if 1 ≤ j && l.get? j == some ' ' then
        match wsFindK l j with
        | some k => some (((l.drop (j + 1)).takeWhile pySpace).take k)
        | none => none
      else none) with
  | some g => g
  | none => l ++ ['\n']

/-- `re.sub(".*#' ?", "", line)` on the body: text after the last `#'`,
minus one following space; unchanged when the marker is absent. -/
def litCore (l : List Char) : List Char :=
  if containsMarker l then dropOneSpace (afterLastMarker l) else l

/-- Length of a literal-space run after `re.sub(" {7,9}", "", line)` has
eaten it greedily from the left. -/
def stripRunAux : Nat → Nat → Nat
  | 0, n => n
  | fuel + 1, n => if 7 ≤ n then stripRunAux fuel (n - 9) else n

def stripRun (n : Nat) : Nat := stripRunAux n n

/-- `re.sub(" {7,9}", "", line)`: every run of literal spaces loses its
7-to-9-space chunks greedily from the left. -/
def strip79Aux : Nat → List Char → List Char
  | 0, l => l
  | _ + 1, [] => []
  | fuel + 1, c :: r =>
    if c == ' ' then
      let n := ((c :: r).takeWhile (· == ' ')).length
      List.replicate (stripRun n) ' ' ++ strip79Aux fuel ((c :: r).drop n)
    else c :: strip79Aux fuel r

def strip79 (l : List Char) : List Char := strip79Aux (l.length + 1) l

/-! ## Emitted output

One constructor per `print` site of the loop; `render` is the exact text
the call writes (`print` appends `'\n'` unless `end=""` is given, and the
`%s`-interpolated `line` still carries its own newline). -/

inductive Emit where
  | title (s : List Char)
  | author (s : List Char)
  | date (s : List Char)
  | moduleLine (s : List Char)
  | classHead (s : List Char)
  | classDoc (s : List Char)
  | defHead (s : List Char)
  | blank
  | funcInline (s : List Char)
  | argsHead
  | argEntry (n d : List Char)
  | argEntry2 (n d : List Char)
  | funcPass (s : List Char)
  | literate (s : List Char)
deriving DecidableEq

/-- The exact characters each `print` site writes to stdout. -/
def render : Emit → List Char
  | .title s => "---\ntitle:  ".toList ++ s ++ ['\n']
  | .author s => "author: ".toList ++ s ++ ['\n']
  | .date s => "date: ".toList ++ s ++ "\n---\n".toList
  | .moduleLine s => s ++ ['\n']
  | .classHead s => "\n**class ".toList ++ s ++ "**\n\n".toList
  | .classDoc s => s ++ "\n\n".toList
  | .defHead s => "\n**def ".toList ++ s ++ "**\n".toList
  | .blank => ['\n']
  | .funcInline s => '\n' :: s ++ "\n\n\n".toList
  | .argsHead => "> _Arguments:_\n\n>".toList
  | .argEntry n d => " - _".toList ++ n ++ "_: ".toList ++ d ++ ['\n']
  | .argEntry2 n d => " - _".toList ++ n ++ "_: ".toList ++ d ++ ['\n']
  | .funcPass s => s ++ ['\n']
  | .literate s => s ++ ['\n']

def Emit.isTitle : Emit → Bool
  | .title _ => true
  | _ => false

def Emit.isAuthor : Emit → Bool
  | .author _ => true
  | _ => false

def Emit.isDate : Emit → Bool
  | .date _ => true
  | _ => false

/-- The mutable flags of `main` (`i`, `module`, `yaml`, `clss`, `func`,
`funcdoc`), with `i` incremented at the top of each loop iteration. -/
structure DocState where
  i : Nat
  module : Bool
  yaml : Nat
  clss : Bool
  func : Bool
  funcdoc : Bool
deriving DecidableEq

def initState : DocState :=
  { i := 0, module := false, yaml := 0, clss := false, func := false,
    funcdoc := false }

/-- One iteration of the `for line in file` loop: the `if`/`elif` chain of
`docu.py` lines 43-85, in source order. -/
def docStep (s : DocState) (l : List Char) : DocState × List Emit :=
  let i := s.i + 1
  if i < 6 ∧ matchTitle l = true then
    ({ s with i := i, yaml := 1, module := true }, [.title (titleSub l)])
  else if i < 5 ∧ s.yaml = 1 then
    ({ s with i := i, yaml := s.yaml + 1 }, [.author l])
  else if i < 5 ∧ s.yaml = 2 ∧ matchDate l = true then
    ({ s with i := i, yaml := s.yaml + 1 }, [.date l])
  else if s.module = true ∧ matchTripleStart l = true then
    ({ s with i := i, module := false }, [])
  else if s.module = true then
    ({ s with i := i }, [.moduleLine l])
  else if matchClass l = true then
    ({ s with i := i, clss := true }, [.classHead (classSub l)])
  else if s.clss = true ∧ matchInlineDoc l = true then
    ({ s with i := i }, [.classDoc (inlineDocSub l)])
  else if s.clss = true ∧ matchDef l = true then
    ({ s with i := i, func := true }, [.defHead (defSub l)])
  else if s.func = true ∧ matchOpen79 l = true then
    ({ s with i := i, funcdoc := true, func := false }, [.blank])
  else if s.func = true ∧ matchInline79 l = true then
    ({ s with i := i, func := false }, [.funcInline (inlineDocSub l)])
  else if s.funcdoc = true then
    if matchArgsHeader l = true then
      ({ s with i := i }, [.argsHead])
    else if matchArg1 l = true then
      ({ s with i := i }, [.argEntry (argNameSub l) (argDescSub l)])
    else if matchArg2 l = true then
      ({ s with i := i }, [.argEntry2 (wsNameSub l) (argDesc2Sub l)])
    else if matchDocClose l = true then
      ({ s with i := i, funcdoc := false, func := false }, [])
    else
      ({ s with i := i }, [.funcPass (strip79 l)])
  else if matchLiterate l = true then
    ({ s with i := i }, [.literate (litCore l)])
  else
    ({ s with i := i }, [])

/-- Run the loop from a given state, collecting the emitted output. -/
def docRunFrom (s : DocState) : List (List Char) → DocState × List Emit
  | [] => (s, [])
  | l :: ls =>
    let p := docStep s l
    let q := docRunFrom p.1 ls
    (q.1, p.2 ++ q.2)

/-- Run the loop from the initial state of `main`. -/
def docRun (lines : List (List Char)) : DocState × List Emit :=
  docRunFrom initState lines

/-- Everything the extraction pass writes to stdout. -/
def docOutput (lines : List (List Char)) : List Char :=
  ((docRun lines).2.map render).flatten

/-- Observable outcome of one invocation of `main` with a file argument. -/
structure RunResult where
  exitCode : Nat
  errors : List (List Char)
  output : List Char
deriving DecidableEq

/-- The message of `print("Error: File '%s' does not exists!")` — the
`%` formatting is missing in the source, so the placeholder is literal. -/
def errFileMsg : List Char :=
  "Error: File ".toList ++ [apos, '%', 's', apos] ++
    " does not exists!".toList

/-- `main` after argument handling (docu.py lines 29-32 and the loop):
when the path does not exist, the error message is printed and
`sys.exit(1)` is called before any Markdown is produced; otherwise the
extraction pass runs to completion and the process exits normally. -/
def mainRun (pathExists : Bool) (lines : List (List Char)) : RunResult :=
  if pathExists then
    { exitCode := 0, errors := [], output := docOutput lines }
  else
    { exitCode := 1, errors := [errFileMsg], output := [] }

def hasTitle (es : List Emit) : Bool := es.any Emit.isTitle
def hasAuthor (es : List Emit) : Bool := es.any Emit.isAuthor
def hasDate (es : List Emit) : Bool := es.any Emit.isDate

/-! ## Concrete scenario inputs -/

/-- End-to-end scenario A exactly as the claim states it: the module
markers are written with single quotes (`'''`). -/
def scenarioALit : List (List Char) :=
  [[apos, apos, apos] ++ "Title".toList,
   "Author Name".toList,
   "2024-01-01 notes".toList,
   [apos, apos, apos],
   "class Foo:".toList,
   "    ".toList ++ trip ++ "One line.".toList ++ trip,
   "    def bar(self):".toList,
   "        ".toList ++ trip,
   "        Arguments:".toList,
   "            x - the value".toList,
   "        ".toList ++ trip]

/-- Scenario A with the module markers written as `"""`, the only marker
the extractor's patterns recognize. -/
def scenarioADq : List (List Char) :=
  [trip ++ "Title".toList,
   "Author Name".toList,
   "2024-01-01 notes".toList,
   trip,
   "class Foo:".toList,
   "    ".toList ++ trip ++ "One line.".toList ++ trip,
   "    def bar(self):".toList,
   "        ".toList ++ trip,
   "        Arguments:".toList,
   "            x - the value".toList,
   "        ".toList ++ trip]

/-! ## Claim C1 -/

/-- C1, counterexample: on the scenario-A input exactly as written (module
markers `'''`), the extractor's output is the string computed here, which
does not begin with a YAML block at all — the title pattern requires
`\x22\x22\x22`, so no front matter fires, and the first character of the
output is a newline, not `-`. -/
theorem c1_counterexample :
    docOutput scenarioALit =
      ("\n**class Foo**\n\nOne line.\n\n\n**def bar(self)**\n\n" ++
        "> _Arguments:_\n\n> - _x_: the value\n").toList ∧
    List.isPrefixOf "---".toList (docOutput scenarioALit) = false := by
  constructor
  · rfl
  · rfl

/-- C1, amended: with the module markers written as `\x22\x22\x22` (the
form the patterns accept), the output begins with the YAML block, but
`title:` is followed by two spaces (the comma of `print` inserts a
separator), the function heading keeps its parameter list
(`**def bar(self)**`), and the argument line is appended to the `>` left
dangling by the Arguments header, giving `> - _x_: the value`. -/
theorem c1_amended :
    docOutput scenarioADq =
      ("---\ntitle:  Title\nauthor: Author Name\ndate: 2024-01-01 notes\n" ++
        "---\n\n**class Foo**\n\nOne line.\n\n\n**def bar(self)**\n\n" ++
        "> _Arguments:_\n\n> - _x_: the value\n").toList ∧
    List.isPrefixOf "---".toList (docOutput scenarioADq) = true := by
  constructor
  · rfl
  · rfl

/-! ## Claim C2 -/

/-- A reachable state with `func` (inFunctionSignature) true inside a
class body. -/
def stateC2 : DocState :=
  { i := 10, module := false, yaml := 0, clss := true, func := true,
    funcdoc := false }

/-- An indented one-line inline description: 8 spaces, `\x22\x22\x22`,
text, `\x22\x22\x22`. -/
def lineC2 : List Char := "        ".toList ++ trip ++ "text".toList ++ trip

/-- C2, counterexample: `lineC2` is a one-line inline description (it
matches the branch-10 pattern) and `func` is true, yet the step leaves
`func` true (the claim says it is set to false): the earlier
class-docstring branch of line 60 captures the line first.  With `clss`
false instead, the line-65 opener branch fires, emitting a blank line and
setting `funcdoc` — the claim's dedicated one-line branch never runs. -/
theorem c2_counterexample :
    stateC2.func = true ∧ matchInline79 lineC2 = true ∧
    (docStep stateC2 lineC2).1.func = true ∧
    (docStep stateC2 lineC2).2 = [Emit.classDoc ("text".toList)] ∧
    (docStep { stateC2 with clss := false } lineC2).2 = [Emit.blank] ∧
    (docStep { stateC2 with clss := false } lineC2).1.funcdoc = true := by
  refine ⟨rfl, rfl, rfl, ?_, rfl, rfl⟩
  rfl

/-- Branch 10's pattern implies branch 9's pattern, so the dedicated
one-line branch can never be reached. -/
theorem inline79_implies_open79 (l : List Char) (h : matchInline79 l = true) :
    matchOpen79 l = true := by
  simp only [matchInline79, Bool.and_eq_true] at h
  simp only [matchOpen79, Bool.and_eq_true]
  exact ⟨h.1.1, h.1.2⟩

/-- Branch 10's pattern also implies the line-60 class-docstring pattern. -/
theorem inline79_implies_inlineDoc (l : List Char)
    (h : matchInline79 l = true) : matchInlineDoc l = true := by
  simp only [matchInline79, Bool.and_eq_true, decide_eq_true_eq] at h
  simp only [matchInlineDoc, Bool.and_eq_true, decide_eq_true_eq]
  exact ⟨⟨by omega, h.1.2⟩, h.2⟩

/-- A line whose leading literal-space run has length at least `k` starts
with `k` spaces. -/
theorem take_eq_replicate_of_run (k : Nat) :
    ∀ l : List Char, k ≤ (l.takeWhile (· == ' ')).length →
      l.take k = List.replicate k ' ' := by
  induction k with
  | zero => intro l _; simp
  | succ k ih =>
    intro l h
    cases l with
    | nil => simp at h
    | cons c r =>
      have hc : c = ' ' := by
        by_contra hne
        have hb : ((c == ' ') : Bool) = false := beq_eq_false_iff_ne.mpr hne
        simp [List.takeWhile_cons, hb] at h
      subst hc
      have h' : k ≤ (r.takeWhile (· == ' ')).length := by
        simp [List.takeWhile_cons] at h
        omega
      simp [List.take_succ_cons, List.replicate_succ, ih r h']

/-- Destructuring of a successful title match. -/
theorem matchTitle_shape (l : List Char) (h : matchTitle l = true) :
    ∃ d rest, l = dq :: dq :: dq :: d :: rest ∧ pySpace d = false ∧
      rest.isEmpty = false := by
  unfold matchTitle at h
  split at h
  · next a b c d rest =>
    simp only [Bool.and_eq_true, beq_iff_eq, Bool.not_eq_true'] at h
    obtain ⟨⟨⟨⟨ha, hb⟩, hc⟩, hd⟩, hrest⟩ := h
    subst ha; subst hb; subst hc
    exact ⟨d, rest, rfl, hd, hrest⟩
  · simp at h

/-- Destructuring of a successful class match. -/
theorem matchClass_shape (l : List Char) (h : matchClass l = true) :
    ∃ r, l = 'c' :: r := by
  simp only [matchClass, Bool.and_eq_true] at h
  have h1 := h.1
  cases l with
  | nil => simp [List.isPrefixOf] at h1
  | cons b bs =>
    have hu : ("class".toList.isPrefixOf (b :: bs)) =
        (('c' == b) && "lass".toList.isPrefixOf bs) := rfl
    rw [hu, Bool.and_eq_true] at h1
    exact ⟨bs, by rw [← beq_iff_eq.mp h1.1]⟩

/-- On a line opening with at least seven literal spaces, the title, class
and def patterns all fail. -/
theorem spacerun7_kills (l : List Char)
    (h7 : 7 ≤ (l.takeWhile (· == ' ')).length) :
    matchTitle l = false ∧ matchClass l = false ∧ matchDef l = false := by
  have htake : l.take 7 = List.replicate 7 ' ' :=
    take_eq_replicate_of_run 7 l h7
  refine ⟨?_, ?_, ?_⟩
  · cases ht : matchTitle l with
    | false => rfl
    | true =>
      obtain ⟨d, rest, hl, -, -⟩ := matchTitle_shape l ht
      rw [hl] at htake
      simp only [List.take_succ_cons, List.replicate_succ,
        List.cons.injEq] at htake
      exact absurd htake.1 (by decide)
  · cases hcl : matchClass l with
    | false => rfl
    | true =>
      obtain ⟨r, hl⟩ := matchClass_shape l hcl
      rw [hl] at htake
      simp only [List.take_succ_cons, List.replicate_succ,
        List.cons.injEq] at htake
      exact absurd htake.1 (by decide)
  · cases hd : matchDef l with
    | false => rfl
    | true =>
      exfalso
      simp only [matchDef, Bool.or_eq_true] at hd
      rcases hd with hd | hd
      · have hp : "    def".toList <+: l := List.isPrefixOf_iff_prefix.mp hd
        have := List.prefix_iff_eq_take.mp hp
        have h7' : "    def".toList = List.replicate 7 ' ' := by
          rw [this]; exact htake
        exact absurd h7' (by decide)
      · have hp : "     def".toList <+: l := List.isPrefixOf_iff_prefix.mp hd
        have h8 := List.prefix_iff_eq_take.mp hp
        have h7' : ("     def".toList).take 7 = l.take 7 := by
          rw [h8]
          simp [List.take_take]
        rw [htake] at h7'
        exact absurd h7' (by decide)

/-- C2, amended: a line with 7-9 leading spaces whose docstring text sits
between the markers on the same line satisfies the multi-line opener
pattern too, and the opener branch (line 65) is checked first, so with
`clss` false the extractor emits a blank line and sets
`inFunctionDescription`; with `clss` true the even earlier class-docstring
branch (line 60) emits the text and leaves `inFunctionSignature` true.
The dedicated one-line branch (line 69) is unreachable. -/
theorem c2_amended :
    (∀ l, matchInline79 l = true →
      matchOpen79 l = true ∧ matchInlineDoc l = true) ∧
    (∀ (s : DocState) (l : List Char), s.func = true → s.module = false →
      s.clss = false → 4 ≤ s.i → matchOpen79 l = true →
      docStep s l =
        ({ s with i := s.i + 1, func := false, funcdoc := true },
          [Emit.blank])) ∧
    (∀ (s : DocState) (l : List Char), s.func = true → s.module = false →
      s.clss = true → 4 ≤ s.i → matchInline79 l = true →
      docStep s l =
        ({ s with i := s.i + 1 }, [Emit.classDoc (inlineDocSub l)])) := by
  refine ⟨fun l h => ⟨inline79_implies_open79 l h,
    inline79_implies_inlineDoc l h⟩, ?_, ?_⟩
  · intro s l hf hm hc hi ho
    have h7 : 7 ≤ (l.takeWhile (· == ' ')).length := by
      simp only [matchOpen79, Bool.and_eq_true, decide_eq_true_eq] at ho
      exact ho.1.1
    obtain ⟨hT, hC, hD⟩ := spacerun7_kills l h7
    have n1 : ¬(s.i + 1 < 6 ∧ matchTitle l = true) :=
      fun h => absurd h.2 (by simp [hT])
    have n2 : ¬(s.i + 1 < 5 ∧ s.yaml = 1) := fun h => absurd h.1 (by omega)
    have n3 : ¬(s.i + 1 < 5 ∧ s.yaml = 2 ∧ matchDate l = true) :=
      fun h => absurd h.1 (by omega)
    have n4 : ¬(s.module = true ∧ matchTripleStart l = true) :=
      fun h => absurd h.1 (by simp [hm])
    have n5 : ¬(s.module = true) := by simp [hm]
    have n6 : ¬(matchClass l = true) := by simp [hC]
    have n7 : ¬(s.clss = true ∧ matchInlineDoc l = true) :=
      fun h => absurd h.1 (by simp [hc])
    have n8 : ¬(s.clss = true ∧ matchDef l = true) :=
      fun h => absurd h.1 (by simp [hc])
    have p9 : s.func = true ∧ matchOpen79 l = true := ⟨hf, ho⟩
    simp only [docStep]
    rw [if_neg n1, if_neg n2, if_neg n3, if_neg n4, if_neg n5, if_neg n6,
      if_neg n7, if_neg n8, if_pos p9]
  · intro s l hf hm hc hi hi79
    have h7 : 7 ≤ (l.takeWhile (· == ' ')).length := by
      have ho := inline79_implies_open79 l hi79
      simp only [matchOpen79, Bool.and_eq_true, decide_eq_true_eq] at ho
      exact ho.1.1
    obtain ⟨hT, hC, hD⟩ := spacerun7_kills l h7
    have n1 : ¬(s.i + 1 < 6 ∧ matchTitle l = true) :=
      fun h => absurd h.2 (by simp [hT])
    have n2 : ¬(s.i + 1 < 5 ∧ s.yaml = 1) := fun h => absurd h.1 (by omega)
    have n3 : ¬(s.i + 1 < 5 ∧ s.yaml = 2 ∧ matchDate l = true) :=
      fun h => absurd h.1 (by omega)
    have n4 : ¬(s.module = true ∧ matchTripleStart l = true) :=
      fun h => absurd h.1 (by simp [hm])
    have n5 : ¬(s.module = true) := by simp [hm]
    have n6 : ¬(matchClass l = true) := by simp [hC]
    have p7 : s.clss = true ∧ matchInlineDoc l = true :=
      ⟨hc, inline79_implies_inlineDoc l hi79⟩
    simp only [docStep]
    rw [if_neg n1, if_neg n2, if_neg n3, if_neg n4, if_neg n5, if_neg n6,
      if_pos p7]

/-- Witness for `c2_amended` at the concrete state and line of the
counterexample. -/
theorem c2_amended_witness :
    matchOpen79 lineC2 = true ∧ matchInline79 lineC2 = true ∧
    docStep { stateC2 with clss := false } lineC2 =
      ({ i := 11, module := false, yaml := 0, clss := false, func := false,
         funcdoc := true }, [Emit.blank]) ∧
    docStep stateC2 lineC2 =
      ({ i := 11, module := false, yaml := 0, clss := true, func := true,
         funcdoc := false }, [Emit.classDoc ("text".toList)]) := by
  have h2 := c2_amended.2.1 { stateC2 with clss := false } lineC2 rfl rfl rfl
    (by decide) (by decide)
  have h3 := c2_amended.2.2 stateC2 lineC2 rfl rfl rfl (by decide) (by decide)
  refine ⟨by decide, by decide, ?_, ?_⟩
  · rw [h2]; rfl
  · rw [h3]; rfl

/-! ## Structural lemmas about the separator and marker searches -/

theorem takeWhile_app_pos (p : Char → Bool) (xs ys : List Char)
    (h : ∀ x ∈ xs, p x = true) :
    (xs ++ ys).takeWhile p = xs ++ ys.takeWhile p := by
  induction xs with
  | nil => simp
  | cons x xs ih =>
    have hx : p x = true := h x (by simp)
    simp only [List.cons_append, List.takeWhile_cons_of_pos hx]
    rw [ih fun y hy => h y (by simp [hy])]

theorem dropWhile_app_pos (p : Char → Bool) (xs ys : List Char)
    (h : ∀ x ∈ xs, p x = true) :
    (xs ++ ys).dropWhile p = ys.dropWhile p := by
  induction xs with
  | nil => simp
  | cons x xs ih =>
    have hx : p x = true := h x (by simp)
    simp only [List.cons_append, List.dropWhile_cons_of_pos hx]
    exact ih fun y hy => h y (by simp [hy])

theorem containsSep_app (xs : List Char) (d : Char) (ds : List Char) :
    containsSep (xs ++ ' ' :: '-' :: ' ' :: d :: ds) = true := by
  induction xs with
  | nil => simp [containsSep, isSepHead]
  | cons x xs ih => simp [containsSep, ih]

theorem afterLastSep_app (d : Char) (ds : List Char)
    (hsep : containsSep (' ' :: d :: ds) = false) :
    ∀ xs : List Char,
      afterLastSep (xs ++ ' ' :: '-' :: ' ' :: d :: ds) = d :: ds := by
  intro xs
  induction xs with
  | nil =>
    have h1 : containsSep ('-' :: ' ' :: d :: ds) = false := by
      rw [show containsSep ('-' :: ' ' :: d :: ds) =
        containsSep (' ' :: d :: ds) from rfl]
      exact hsep
    rw [List.nil_append, afterLastSep]
    rw [if_pos (show isSepHead (' ' :: '-' :: ' ' :: d :: ds) = true from rfl)]
    rw [if_neg (by simp [h1])]
    rfl
  | cons x xs ih =>
    rw [List.cons_append, afterLastSep]
    by_cases hsh : isSepHead (x :: (xs ++ ' ' :: '-' :: ' ' :: d :: ds)) = true
    · rw [if_pos hsh, if_pos (by simp [containsSep_app])]
      exact ih
    · rw [if_neg hsh]
      exact ih

theorem containsMarker_app (b : List Char) :
    ∀ a, containsMarker (a ++ '#' :: apos :: b) = true := by
  intro a
  induction a with
  | nil => simp [containsMarker, isMarkerHead]
  | cons x xs ih => simp [containsMarker, ih]

theorem containsMarker_tail (x : Char) (r : List Char)
    (h : containsMarker (x :: r) = false) : containsMarker r = false := by
  rw [containsMarker] at h
  exact (Bool.or_eq_false_iff.mp h).2

theorem afterLastMarker_app (b : List Char) (hb : containsMarker b = false) :
    ∀ a, afterLastMarker (a ++ '#' :: apos :: b) = b := by
  intro a
  induction a with
  | nil =>
    have h1 : containsMarker (apos :: b) = false := by
      rw [show containsMarker (apos :: b) = containsMarker b from rfl]
      exact hb
    rw [List.nil_append, afterLastMarker]
    rw [if_pos (show isMarkerHead ('#' :: apos :: b) = true from rfl)]
    rw [if_neg (by simp [h1])]
    rfl
  | cons x xs ih =>
    rw [List.cons_append, afterLastMarker]
    by_cases hm : isMarkerHead (x :: (xs ++ '#' :: apos :: b)) = true
    · rw [if_pos hm, if_pos (by simp [containsMarker_app])]
      exact ih
    · rw [if_neg hm]
      exact ih

/-! ## Claim C3 -/

/-- A lowercase letter differs from any character that is not lowercase. -/
theorem lower_ne (c d : Char) (hc : isLowerAZ c = true)
    (hd : isLowerAZ d = false) : c ≠ d := by
  intro h
  subst h
  rw [hc] at hd
  cases hd

/-- A lowercase letter is not Python whitespace. -/
theorem pySpace_of_lower (c : Char) (hc : isLowerAZ c = true) :
    pySpace c = false := by
  cases hp : pySpace c with
  | false => rfl
  | true =>
    exfalso
    unfold pySpace at hp
    simp only [Bool.or_eq_true, beq_iff_eq] at hp
    rcases hp with ((((h | h) | h) | h) | h) | h <;>
      (subst h; exact absurd hc (by decide))

/-- The argument line of the amended claim C3: `k` leading spaces, the
name, `" - "`, then the description. -/
def argLine (k : Nat) (name desc : List Char) : List Char :=
  List.replicate k ' ' ++ name ++ ' ' :: '-' :: ' ' :: desc

/-- A state with a function description block open, as left by a class
heading, a def heading and a docstring opener. -/
def stateC3 : DocState :=
  { i := 9, module := false, yaml := 3, clss := true, func := false,
    funcdoc := true }

/-- The four-space argument line of claim C3. -/
def lineC3 : List Char := "    x - the value".toList

/-- C3, counterexample: with `inFunctionDescription` true, the four-space
argument line `    x - the value` fails the `{9,12}`-space guard and falls
through to the passthrough branch, which emits it verbatim — not as
` - _x_: the value`. -/
theorem c3_counterexample :
    stateC3.funcdoc = true ∧
    docStep stateC3 lineC3 =
      ({ stateC3 with i := 10 }, [Emit.funcPass lineC3]) ∧
    render (Emit.funcPass lineC3) = "    x - the value\n".toList ∧
    render (Emit.funcPass lineC3) ≠ " - _x_: the value\n".toList := by
  refine ⟨rfl, by rfl, by rfl, by decide⟩

/-- The literal-space run of an argument line is exactly its `k` leading
spaces when the name starts with a non-space character. -/
theorem argLine_takeWhile_space (k : Nat) (c : Char) (nm tail : List Char)
    (hc : (c == ' ') = false) :
    ((List.replicate k ' ' ++ ((c :: nm) ++ tail)).takeWhile (· == ' ')) =
      List.replicate k ' ' := by
  rw [takeWhile_app_pos _ _ _ fun x hx => by
    rw [List.eq_of_mem_replicate hx]; rfl]
  rw [List.cons_append, List.takeWhile_cons_of_neg (by simp [hc]),
    List.append_nil]

/-- `argNameSub` extracts exactly the name from a well-formed argument
line: whitespace, a non-whitespace name, `" - "`, a nonempty description. -/
theorem argNameSub_app (k : Nat) (c : Char) (nm : List Char) (d : Char)
    (ds : List Char) (hk : 1 ≤ k)
    (hnm : ∀ x ∈ c :: nm, pySpace x = false) :
    argNameSub (argLine k (c :: nm) (d :: ds)) = c :: nm := by
  have hc : pySpace c = false := hnm c (by simp)
  have e1 : (argLine k (c :: nm) (d :: ds)).takeWhile pySpace =
      List.replicate k ' ' := by
    unfold argLine
    rw [List.append_assoc]
    rw [takeWhile_app_pos _ _ _ fun x hx => by
      rw [List.eq_of_mem_replicate hx]; rfl]
    rw [List.cons_append, List.takeWhile_cons_of_neg (by simp [hc]),
      List.append_nil]
  have e2 : (argLine k (c :: nm) (d :: ds)).dropWhile pySpace =
      (c :: nm) ++ ' ' :: '-' :: ' ' :: d :: ds := by
    unfold argLine
    rw [List.append_assoc]
    rw [dropWhile_app_pos _ _ _ fun x hx => by
      rw [List.eq_of_mem_replicate hx]; rfl]
    rw [List.cons_append, List.dropWhile_cons_of_neg (by simp [hc])]
  have e3 : ((c :: nm) ++ ' ' :: '-' :: ' ' :: d :: ds).takeWhile
      (fun x => !pySpace x) = c :: nm := by
    rw [takeWhile_app_pos _ _ _ fun x hx => by simp [hnm x hx]]
    rw [List.takeWhile_cons_of_neg (by simp [pySpace]), List.append_nil]
  have e4 : ((c :: nm) ++ ' ' :: '-' :: ' ' :: d :: ds).drop
      (c :: nm).length = ' ' :: '-' :: ' ' :: d :: ds :=
    List.drop_left _ _
  have hrep : (List.replicate k ' ').isEmpty = false := by
    cases k with
    | zero => omega
    | succ k' => rfl
  have e5 : (' ' :: '-' :: ' ' :: d :: ds).takeWhile (· == ' ') = [' '] := by
    rw [List.takeWhile_cons_of_pos (by rfl),
      List.takeWhile_cons_of_neg (by decide)]
  have e6 : (' ' :: '-' :: ' ' :: d :: ds).dropWhile (· == ' ') =
      '-' :: ' ' :: d :: ds := by
    rw [List.dropWhile_cons_of_pos (by rfl),
      List.dropWhile_cons_of_neg (by decide)]
  simp only [argNameSub]
  rw [e1, e2, e3, e4, e5, e6, hrep]
  rfl

/-- `argDescSub` extracts exactly the description from a well-formed
argument line whose description creates no further separator. -/
theorem argDescSub_app (k : Nat) (name : List Char) (d : Char)
    (ds : List Char) (hk : 1 ≤ k)
    (hsep : containsSep (' ' :: d :: ds) = false) :
    argDescSub (argLine k name (d :: ds)) = d :: ds := by
  obtain ⟨k', rfl⟩ : ∃ k', k = k' + 1 := ⟨k - 1, by omega⟩
  have hl : argLine (k' + 1) name (d :: ds) =
      ' ' :: ((List.replicate k' ' ' ++ name) ++ ' ' :: '-' :: ' ' :: d :: ds) := by
    unfold argLine
    simp [List.replicate_succ, List.append_assoc]
  rw [hl]
  simp only [argDescSub]
  rw [if_pos (containsSep_app (List.replicate k' ' ' ++ name) d ds)]
  exact afterLastSep_app d ds hsep _

/-- C3, amended: argument lines need 9 to 12 leading spaces (not four) and
a name starting with a lowercase letter; such a line, read while
`inFunctionDescription` is true, emits exactly ` - _name_: description`
(provided the description introduces no further `" - "` separator, which
would shift the greedy split).  Four-space lines fall through to the
verbatim passthrough branch (see the counterexample). -/
theorem c3_amended (s : DocState) (k : Nat) (c : Char) (nm : List Char)
    (d : Char) (ds : List Char)
    (hfd : s.funcdoc = true) (hm : s.module = false) (hi : 4 ≤ s.i)
    (hk9 : 9 ≤ k) (hk12 : k ≤ 12) (hc : isLowerAZ c = true)
    (hnm : ∀ x ∈ c :: nm, pySpace x = false)
    (hsep : containsSep (' ' :: d :: ds) = false) :
    docStep s (argLine k (c :: nm) (d :: ds)) =
      ({ s with i := s.i + 1 }, [Emit.argEntry (c :: nm) (d :: ds)]) ∧
    render (Emit.argEntry (c :: nm) (d :: ds)) =
      " - _".toList ++ (c :: nm) ++ "_: ".toList ++ (d :: ds) ++ ['\n'] := by
  have hcsp : (c == ' ') = false :=
    beq_eq_false_iff_ne.mpr (lower_ne c ' ' hc (by decide))
  have erun : (argLine k (c :: nm) (d :: ds)).takeWhile (· == ' ') =
      List.replicate k ' ' := by
    unfold argLine
    rw [List.append_assoc]
    exact argLine_takeWhile_space k c nm _ hcsp
  have edrop : (argLine k (c :: nm) (d :: ds)).drop k =
      (c :: nm) ++ ' ' :: '-' :: ' ' :: d :: ds := by
    unfold argLine
    rw [List.append_assoc]
    exact List.drop_left' (by rw [List.length_replicate])
  have hdqc : (dq == c) = false :=
    beq_eq_false_iff_ne.mpr (Ne.symm (lower_ne c dq hc (by decide)))
  have htrip : trip.isPrefixOf ((c :: nm) ++ ' ' :: '-' :: ' ' :: d :: ds) =
      false := by
    rw [List.cons_append]
    rw [show trip.isPrefixOf (c :: (nm ++ ' ' :: '-' :: ' ' :: d :: ds)) =
      ((dq == c) && [dq, dq].isPrefixOf (nm ++ ' ' :: '-' :: ' ' :: d :: ds))
      from rfl]
    simp [hdqc]
  have hac : (('A' : Char) == c) = false :=
    beq_eq_false_iff_ne.mpr (Ne.symm (lower_ne c 'A' hc (by decide)))
  have hargh : "Arguments:".toList.isPrefixOf
      ((c :: nm) ++ ' ' :: '-' :: ' ' :: d :: ds) = false := by
    rw [List.cons_append]
    rw [show "Arguments:".toList.isPrefixOf
        (c :: (nm ++ ' ' :: '-' :: ' ' :: d :: ds)) =
      ((('A' : Char) == c) &&
        "rguments:".toList.isPrefixOf (nm ++ ' ' :: '-' :: ' ' :: d :: ds))
      from rfl]
    simp [hac]
  have h7 : 7 ≤ ((argLine k (c :: nm) (d :: ds)).takeWhile (· == ' ')).length := by
    rw [erun, List.length_replicate]
    omega
  obtain ⟨hT, hC, hD⟩ := spacerun7_kills _ h7
  have hMID : matchInlineDoc (argLine k (c :: nm) (d :: ds)) = false := by
    simp only [matchInlineDoc]
    rw [erun, List.length_replicate, edrop, htrip]
    simp
  have hMO79 : matchOpen79 (argLine k (c :: nm) (d :: ds)) = false := by
    simp only [matchOpen79]
    rw [erun, List.length_replicate, edrop, htrip]
    simp
  have hMI79 : matchInline79 (argLine k (c :: nm) (d :: ds)) = false := by
    simp only [matchInline79]
    rw [erun, List.length_replicate, edrop, htrip]
    simp
  have hMAH : matchArgsHeader (argLine k (c :: nm) (d :: ds)) = false := by
    simp only [matchArgsHeader]
    rw [erun, List.length_replicate, edrop, hargh]
    simp
  have hMA1 : matchArg1 (argLine k (c :: nm) (d :: ds)) = true := by
    simp only [matchArg1]
    rw [erun, List.length_replicate, edrop]
    rw [List.cons_append]
    simp [hk9, hk12, hc]
  have n1 : ¬(s.i + 1 < 6 ∧ matchTitle (argLine k (c :: nm) (d :: ds)) = true) :=
    fun h => absurd h.2 (by simp [hT])
  have n2 : ¬(s.i + 1 < 5 ∧ s.yaml = 1) := fun h => absurd h.1 (by omega)
  have n3 : ¬(s.i + 1 < 5 ∧ s.yaml = 2 ∧
      matchDate (argLine k (c :: nm) (d :: ds)) = true) :=
    fun h => absurd h.1 (by omega)
  have n4 : ¬(s.module = true ∧
      matchTripleStart (argLine k (c :: nm) (d :: ds)) = true) :=
    fun h => absurd h.1 (by simp [hm])
  have n5 : ¬(s.module = true) := by simp [hm]
  have n6 : ¬(matchClass (argLine k (c :: nm) (d :: ds)) = true) := by
    simp [hC]
  have n7 : ¬(s.clss = true ∧
      matchInlineDoc (argLine k (c :: nm) (d :: ds)) = true) :=
    fun h => absurd h.2 (by simp [hMID])
  have n8 : ¬(s.clss = true ∧
      matchDef (argLine k (c :: nm) (d :: ds)) = true) :=
    fun h => absurd h.2 (by simp [hD])
  have n9 : ¬(s.func = true ∧
      matchOpen79 (argLine k (c :: nm) (d :: ds)) = true) :=
    fun h => absurd h.2 (by simp [hMO79])
  have n10 : ¬(s.func = true ∧
      matchInline79 (argLine k (c :: nm) (d :: ds)) = true) :=
    fun h => absurd h.2 (by simp [hMI79])
  constructor
  · simp only [docStep]
    rw [if_neg n1, if_neg n2, if_neg n3, if_neg n4, if_neg n5, if_neg n6,
      if_neg n7, if_neg n8, if_neg n9, if_neg n10, if_pos hfd,
      if_neg (by simp [hMAH]), if_pos hMA1]
    rw [argNameSub_app k c nm d ds (by omega) hnm,
      argDescSub_app k (c :: nm) d ds (by omega) hsep]
  · rfl

/-- Witness for `c3_amended`: a 12-space argument line
`            x - the value` in a function description block. -/
theorem c3_amended_witness :
    docStep stateC3 (argLine 12 ['x'] ("the value".toList)) =
      ({ i := 10, module := false, yaml := 3, clss := true, func := false,
         funcdoc := true }, [Emit.argEntry ['x'] ("the value".toList)]) ∧
    render (Emit.argEntry ['x'] ("the value".toList)) =
      " - _x_: the value\n".toList := by
  have h := c3_amended stateC3 12 'x' [] 't' ("he value".toList) rfl rfl
    (by decide) (by decide) (by decide) (by decide)
    (by intro x hx; simp at hx; subst hx; rfl) (by decide)
  constructor
  · rw [show ("the value".toList) = 't' :: ("he value".toList) from rfl]
    rw [h.1]
    rfl
  · rfl

/-! ## Claim C6 -/

/-- A class heading line: `class`, spaces, the captured token, and the
remainder (which begins with a colon or whitespace, or is empty). -/
def classLine (j : Nat) (tok rest : List Char) : List Char :=
  "class".toList ++ (List.replicate j ' ' ++ (tok ++ rest))

/-- `classSub` captures exactly the token of a well-formed class heading. -/
theorem classSub_app (j : Nat) (t : Char) (tok rest : List Char)
    (hj : 1 ≤ j)
    (htok : ∀ x ∈ t :: tok, ((x == ':') || pySpace x) = false)
    (hrest : ∀ c cs, rest = c :: cs → ((c == ':') || pySpace c) = true) :
    classSub (classLine j (t :: tok) rest) = t :: tok := by
  have ht : ((t == ' ') : Bool) = false := by
    have := htok t (by simp)
    rcases Bool.or_eq_false_iff.mp this with ⟨-, hsp⟩
    cases hb : (t == ' ') with
    | false => rfl
    | true =>
      exfalso
      rw [beq_iff_eq.mp hb] at hsp
      exact absurd hsp (by decide)
  have hpre : "class".toList.isPrefixOf (classLine j (t :: tok) rest) = true :=
    List.isPrefixOf_iff_prefix.mpr (List.prefix_append _ _)
  have e0 : (classLine j (t :: tok) rest).drop 5 =
      List.replicate j ' ' ++ ((t :: tok) ++ rest) := by
    unfold classLine
    rw [show (5 : Nat) = ("class".toList).length from rfl, List.drop_left]
  have e1 : (List.replicate j ' ' ++ ((t :: tok) ++ rest)).takeWhile
      (· == ' ') = List.replicate j ' ' := by
    rw [takeWhile_app_pos _ _ _ fun x hx => by
      rw [List.eq_of_mem_replicate hx]; rfl]
    rw [List.cons_append, List.takeWhile_cons_of_neg (by simp [ht]),
      List.append_nil]
  have e2 : (List.replicate j ' ' ++ ((t :: tok) ++ rest)).dropWhile
      (· == ' ') = (t :: tok) ++ rest := by
    rw [dropWhile_app_pos _ _ _ fun x hx => by
      rw [List.eq_of_mem_replicate hx]; rfl]
    rw [List.cons_append, List.dropWhile_cons_of_neg (by simp [ht])]
  have e3 : ((t :: tok) ++ rest).takeWhile
      (fun c => !((c == ':') || pySpace c)) = t :: tok := by
    rw [takeWhile_app_pos _ _ _ fun x hx => by simp [htok x hx]]
    have : rest.takeWhile (fun c => !((c == ':') || pySpace c)) = [] := by
      cases rest with
      | nil => rfl
      | cons c cs =>
        rw [List.takeWhile_cons_of_neg (by simp [hrest c cs rfl])]
    rw [this, List.append_nil]
  have hrep : (List.replicate j ' ').isEmpty = false := by
    cases j with
    | zero => omega
    | succ j' => rfl
  simp only [classSub]
  rw [if_pos hpre, e0, e1, e2, e3, hrep]
  rfl

/-- A state in which a class heading line is dispatched to the class
branch (front-matter window closed, no module block open). -/
def stateC6 : DocState :=
  { i := 9, module := false, yaml := 3, clss := false, func := false,
    funcdoc := false }

/-- C6, counterexample: the heading `class Foo(Base):` emits
`**class Foo(Base)**` — the parameter list is NOT stripped, because the
captured group `[^:\s\n]+` accepts parentheses; only the colon and what
follows it are dropped. -/
theorem c6_counterexample :
    docStep stateC6 ("class Foo(Base):".toList) =
      ({ stateC6 with i := 10, clss := true },
        [Emit.classHead ("Foo(Base)".toList)]) ∧
    render (Emit.classHead ("Foo(Base)".toList)) =
      "\n**class Foo(Base)**\n\n".toList ∧
    "Foo(Base)".toList ≠ "Foo".toList := by
  exact ⟨by rfl, by rfl, by decide⟩

/-- C6, amended: for a recognized class heading `class` + spaces + token +
rest (rest empty or starting with a colon or whitespace), exactly one
`**class X**` heading is emitted where X is the token: the maximal run of
characters other than colon and whitespace after the spaces.  X retains a
parameter list attached to the name; only the colon and everything from
the first colon or whitespace on are stripped. -/
theorem c6_amended (s : DocState) (j : Nat) (t : Char) (tok rest : List Char)
    (hm : s.module = false) (hi : 4 ≤ s.i) (hj : 1 ≤ j)
    (htok : ∀ x ∈ t :: tok, ((x == ':') || pySpace x) = false)
    (hrest : ∀ c cs, rest = c :: cs → ((c == ':') || pySpace c) = true) :
    docStep s (classLine j (t :: tok) rest) =
      ({ s with i := s.i + 1, clss := true },
        [Emit.classHead (t :: tok)]) ∧
    render (Emit.classHead (t :: tok)) =
      "\n**class ".toList ++ (t :: tok) ++ "**\n\n".toList := by
  have hclass : matchClass (classLine j (t :: tok) rest) = true := by
    have hpre : "class".toList.isPrefixOf (classLine j (t :: tok) rest) =
        true := List.isPrefixOf_iff_prefix.mpr (List.prefix_append _ _)
    have e0 : (classLine j (t :: tok) rest).drop 5 =
        List.replicate j ' ' ++ ((t :: tok) ++ rest) := by
      unfold classLine
      rw [show (5 : Nat) = ("class".toList).length from rfl, List.drop_left]
    simp only [matchClass, e0, hpre]
    obtain ⟨j', rfl⟩ : ∃ j', j = j' + 1 := ⟨j - 1, by omega⟩
    simp [List.replicate_succ]
  have hT : matchTitle (classLine j (t :: tok) rest) = false := by
    cases hx : matchTitle (classLine j (t :: tok) rest) with
    | false => rfl
    | true =>
      exfalso
      obtain ⟨d, rest', hl, -, -⟩ := matchTitle_shape _ hx
      have hhd : (classLine j (t :: tok) rest).head? = some 'c' := by
        unfold classLine
        rfl
      rw [hl] at hhd
      simp at hhd
      exact absurd hhd.symm (by decide)
  have n1 : ¬(s.i + 1 < 6 ∧ matchTitle (classLine j (t :: tok) rest) = true) :=
    fun h => absurd h.2 (by simp [hT])
  have n2 : ¬(s.i + 1 < 5 ∧ s.yaml = 1) := fun h => absurd h.1 (by omega)
  have n3 : ¬(s.i + 1 < 5 ∧ s.yaml = 2 ∧
      matchDate (classLine j (t :: tok) rest) = true) :=
    fun h => absurd h.1 (by omega)
  have n4 : ¬(s.module = true ∧
      matchTripleStart (classLine j (t :: tok) rest) = true) :=
    fun h => absurd h.1 (by simp [hm])
  have n5 : ¬(s.module = true) := by simp [hm]
  constructor
  · simp only [docStep]
    rw [if_neg n1, if_neg n2, if_neg n3, if_neg n4, if_neg n5, if_pos hclass]
    rw [classSub_app j t tok rest hj htok hrest]
  · rfl

/-- Witness for `c6_amended` at `class Foo:`. -/
theorem c6_amended_witness :
    docStep stateC6 (classLine 1 ("Foo".toList) [':']) =
      ({ i := 10, module := false, yaml := 3, clss := true, func := false,
         funcdoc := false }, [Emit.classHead ("Foo".toList)]) ∧
    classLine 1 ("Foo".toList) [':'] = "class Foo:".toList := by
  have h := c6_amended stateC6 1 'F' ("oo".toList) [':'] rfl (by decide)
    (by decide) (by decide)
    (by intro c cs hcs; cases hcs; rfl)
  constructor
  · rw [show ("Foo".toList) = 'F' :: ("oo".toList) from rfl, h.1]
    rfl
  · rfl

/-! ## Claims C8 and C10 -/

/-- A line matched by the literate rule contains the marker. -/
theorem literate_containsMarker (l : List Char)
    (h : matchLiterate l = true) : containsMarker l = true := by
  induction l with
  | nil => simp [matchLiterate, List.isPrefixOf] at h
  | cons c r ih =>
    by_cases hc : pySpace c = true
    · have he : matchLiterate (c :: r) = matchLiterate r := by
        simp [matchLiterate, List.dropWhile_cons_of_pos hc]
      rw [he] at h
      rw [containsMarker, ih h]
      simp
    · have he : (c :: r).dropWhile pySpace = c :: r :=
        List.dropWhile_cons_of_neg (by simp_all)
      rw [matchLiterate, he] at h
      rw [show marker.isPrefixOf (c :: r) =
        (('#' == c) && [apos].isPrefixOf r) from rfl] at h
      rw [Bool.and_eq_true] at h
      obtain ⟨hc1, hc2⟩ := h
      rw [← beq_iff_eq.mp hc1]
      cases r with
      | nil => simp [List.isPrefixOf] at hc2
      | cons b bs =>
        rw [show ([apos].isPrefixOf (b :: bs)) =
          ((apos == b) && List.isPrefixOf [] bs) from rfl] at hc2
        rw [Bool.and_eq_true] at hc2
        rw [containsMarker]
        rw [show isMarkerHead ('#' :: b :: bs) = (b == apos) from rfl]
        rw [beq_iff_eq.mp hc2.1]
        simp

/-- After the last marker there is no marker left. -/
theorem afterLastMarker_free (l : List Char) (h : containsMarker l = true) :
    containsMarker (afterLastMarker l) = false := by
  induction l with
  | nil => simp [containsMarker] at h
  | cons c r ih =>
    rw [afterLastMarker]
    by_cases hmh : isMarkerHead (c :: r) = true
    · rw [if_pos hmh]
      by_cases hr : containsMarker r = true
      · rw [if_pos hr]
        exact ih hr
      · rw [if_neg hr]
        have hrf : containsMarker r = false := by simpa using hr
        cases r with
        | nil => rfl
        | cons b bs => exact containsMarker_tail b bs hrf
    · rw [if_neg hmh]
      rw [containsMarker] at h
      have : containsMarker r = true := by
        rcases Bool.or_eq_true_iff.mp h with h1 | h1
        · exact absurd h1 hmh
        · exact h1
      exact ih this

/-- Dropping one leading space cannot create a marker. -/
theorem containsMarker_dropOneSpace (m : List Char)
    (h : containsMarker m = false) :
    containsMarker (dropOneSpace m) = false := by
  unfold dropOneSpace
  by_cases hh : (m.head? == some ' ') = true
  · rw [if_pos hh]
    cases m with
    | nil => rfl
    | cons c r => exact containsMarker_tail c r h
  · rw [if_neg hh]
    exact h

/-- C8, confirmed: stripping the literate marker is idempotent — the
emitted text holds no remaining `#` + quote marker, so applying the same
substitution to it changes nothing. -/
theorem c8_confirmed (l : List Char) (h : matchLiterate l = true) :
    containsMarker (litCore l) = false ∧ litCore (litCore l) = litCore l := by
  have hcm : containsMarker l = true := literate_containsMarker l h
  have hfree : containsMarker (litCore l) = false := by
    rw [litCore, if_pos hcm]
    exact containsMarker_dropOneSpace _ (afterLastMarker_free l hcm)
  refine ⟨hfree, ?_⟩
  rw [litCore, if_neg (by simp [hfree])]

/-- Witness for `c8_confirmed` at the line `#` + quote + ` Hello`. -/
theorem c8_witness :
    containsMarker (litCore (marker ++ " Hello".toList)) = false ∧
    litCore (litCore (marker ++ " Hello".toList)) =
      litCore (marker ++ " Hello".toList) :=
  c8_confirmed (marker ++ " Hello".toList) (by decide)

/-- If a literate line decomposed as spaces then a non-space, non-`#`
character, the literate guard cannot hold. -/
theorem literate_contra (l : List Char) (n : Nat) (x : Char) (Y : List Char)
    (hlit : matchLiterate l = true) (hl : l = List.replicate n ' ' ++ (x :: Y))
    (hx : pySpace x = false) (hne : x ≠ '#') : False := by
  have hdw : l.dropWhile pySpace = x :: Y := by
    rw [hl]
    rw [dropWhile_app_pos _ _ _ fun c hc => by
      rw [List.eq_of_mem_replicate hc]; rfl]
    exact List.dropWhile_cons_of_neg (by simp [hx])
  rw [matchLiterate, hdw] at hlit
  rw [show marker.isPrefixOf (x :: Y) =
    (('#' == x) && [apos].isPrefixOf Y) from rfl] at hlit
  rw [beq_eq_false_iff_ne.mpr (Ne.symm hne)] at hlit
  simp at hlit

/-- On a literate-comment line every heading/docstring pattern fails: the
first non-whitespace character is `#`. -/
theorem literate_kills (l : List Char) (h : matchLiterate l = true) :
    matchTitle l = false ∧ matchClass l = false ∧
    matchInlineDoc l = false ∧ matchDef l = false ∧
    matchOpen79 l = false ∧ matchInline79 l = false := by
  have ktrip : ∀ n : Nat, trip.isPrefixOf (l.drop n) = true →
      n ≤ (l.takeWhile (· == ' ')).length → False := by
    intro n htr hn
    cases hd : l.drop n with
    | nil => rw [hd] at htr; simp [List.isPrefixOf] at htr
    | cons x Y =>
      rw [hd] at htr
      rw [show trip.isPrefixOf (x :: Y) =
        ((dq == x) && [dq, dq].isPrefixOf Y) from rfl] at htr
      rw [Bool.and_eq_true] at htr
      have hx : x = dq := (beq_iff_eq.mp htr.1).symm
      subst hx
      have htake : l.take n = List.replicate n ' ' :=
        take_eq_replicate_of_run n l hn
      exact literate_contra l n dq Y h
        (by rw [← htake, ← hd, List.take_append_drop]) (by decide) (by decide)
  refine ⟨?_, ?_, ?_, ?_, ?_, ?_⟩
  · cases ht : matchTitle l with
    | false => rfl
    | true =>
      exfalso
      obtain ⟨d, rest, hl, -, -⟩ := matchTitle_shape l ht
      exact literate_contra l 0 dq (dq :: dq :: d :: rest) h (by simp [hl])
        (by decide) (by decide)
  · cases hc : matchClass l with
    | false => rfl
    | true =>
      exfalso
      obtain ⟨r, hl⟩ := matchClass_shape l hc
      exact literate_contra l 0 'c' r h (by simp [hl]) (by decide) (by decide)
  · cases hc : matchInlineDoc l with
    | false => rfl
    | true =>
      exfalso
      simp only [matchInlineDoc, Bool.and_eq_true, decide_eq_true_eq] at hc
      exact ktrip _ hc.1.2 le_rfl
  · cases hc : matchDef l with
    | false => rfl
    | true =>
      exfalso
      simp only [matchDef, Bool.or_eq_true] at hc
      rcases hc with hc | hc
      · have hp : "    def".toList <+: l := List.isPrefixOf_iff_prefix.mp hc
        have h7 := List.prefix_iff_eq_take.mp hp
        rw [show ("    def".toList).length = 7 from rfl] at h7
        have hl : l = "    def".toList ++ l.drop 7 := by
          conv_lhs => rw [← List.take_append_drop 7 l]
          rw [← h7]
        exact literate_contra l 4 'd' ('e' :: 'f' :: l.drop 7) h (by simpa using hl)
          (by decide) (by decide)
      · have hp : "     def".toList <+: l := List.isPrefixOf_iff_prefix.mp hc
        have h8 := List.prefix_iff_eq_take.mp hp
        rw [show ("     def".toList).length = 8 from rfl] at h8
        have hl : l = "     def".toList ++ l.drop 8 := by
          conv_lhs => rw [← List.take_append_drop 8 l]
          rw [← h8]
        exact literate_contra l 5 'd' ('e' :: 'f' :: l.drop 8) h (by simpa using hl)
          (by decide) (by decide)
  · cases hc : matchOpen79 l with
    | false => rfl
    | true =>
      exfalso
      simp only [matchOpen79, Bool.and_eq_true, decide_eq_true_eq] at hc
      exact ktrip _ hc.2 le_rfl
  · cases hc : matchInline79 l with
    | false => rfl
    | true =>
      exfalso
      simp only [matchInline79, Bool.and_eq_true, decide_eq_true_eq] at hc
      exact ktrip _ hc.1.2 le_rfl

/-- C10, confirmed: on a literate-comment line holding the marker more
than once, the emitted text is exactly the text after the LAST marker,
with one following space also removed; everything before and including
that last marker is dropped. -/
theorem c10_confirmed (a b : List Char) (s : DocState)
    (hlit : matchLiterate (a ++ marker ++ b) = true)
    (_hmult : containsMarker a = true)
    (hb : containsMarker b = false)
    (hm : s.module = false) (hfd : s.funcdoc = false) (hi : 4 ≤ s.i) :
    litCore (a ++ marker ++ b) = dropOneSpace b ∧
    docStep s (a ++ marker ++ b) =
      ({ s with i := s.i + 1 }, [Emit.literate (dropOneSpace b)]) := by
  have hassoc : a ++ marker ++ b = a ++ '#' :: apos :: b := by
    rw [List.append_assoc]
    rfl
  have hcm : containsMarker (a ++ marker ++ b) = true := by
    rw [hassoc]
    exact containsMarker_app b a
  have hcore : litCore (a ++ marker ++ b) = dropOneSpace b := by
    rw [litCore, if_pos hcm, hassoc, afterLastMarker_app b hb a]
  obtain ⟨hT, hC, hID, hD, hO79, hI79⟩ := literate_kills _ hlit
  have n1 : ¬(s.i + 1 < 6 ∧ matchTitle (a ++ marker ++ b) = true) :=
    fun h => by rw [h.2] at hT; exact Bool.noConfusion hT
  have n2 : ¬(s.i + 1 < 5 ∧ s.yaml = 1) := fun h => absurd h.1 (by omega)
  have n3 : ¬(s.i + 1 < 5 ∧ s.yaml = 2 ∧
      matchDate (a ++ marker ++ b) = true) :=
    fun h => absurd h.1 (by omega)
  have n4 : ¬(s.module = true ∧
      matchTripleStart (a ++ marker ++ b) = true) :=
    fun h => absurd h.1 (by simp [hm])
  have n5 : ¬(s.module = true) := by simp [hm]
  have n6 : ¬(matchClass (a ++ marker ++ b) = true) :=
    fun h => by rw [h] at hC; exact Bool.noConfusion hC
  have n7 : ¬(s.clss = true ∧ matchInlineDoc (a ++ marker ++ b) = true) :=
    fun h => by rw [h.2] at hID; exact Bool.noConfusion hID
  have n8 : ¬(s.clss = true ∧ matchDef (a ++ marker ++ b) = true) :=
    fun h => by rw [h.2] at hD; exact Bool.noConfusion hD
  have n9 : ¬(s.func = true ∧ matchOpen79 (a ++ marker ++ b) = true) :=
    fun h => by rw [h.2] at hO79; exact Bool.noConfusion hO79
  have n10 : ¬(s.func = true ∧ matchInline79 (a ++ marker ++ b) = true) :=
    fun h => by rw [h.2] at hI79; exact Bool.noConfusion hI79
  refine ⟨hcore, ?_⟩
  simp only [docStep]
  rw [if_neg n1, if_neg n2, if_neg n3, if_neg n4, if_neg n5, if_neg n6,
    if_neg n7, if_neg n8, if_neg n9, if_neg n10, if_neg (by simp [hfd]),
    if_pos hlit, hcore]

/-- Witness for `c10_confirmed`: the line `#`quote` a #`quote` b c` holds
two markers; the emitted text is `b c`, the text after the second marker
with its following space removed. -/
theorem c10_witness :
    litCore (marker ++ " a ".toList ++ marker ++ " b c".toList) =
      "b c".toList ∧
    docStep
      ({ i := 20, module := false, yaml := 3, clss := false,
         func := false, funcdoc := false })
      (marker ++ " a ".toList ++ marker ++ " b c".toList) =
      ({ i := 21, module := false, yaml := 3, clss := false, func := false,
         funcdoc := false }, [Emit.literate ("b c".toList)]) := by
  have h := c10_confirmed (marker ++ " a ".toList) (" b c".toList)
    ({ i := 20, module := false, yaml := 3, clss := false, func := false,
       funcdoc := false })
    (by decide) (by decide) (by decide) rfl rfl (by decide)
  have hre : (marker ++ " a ".toList) ++ marker ++ " b c".toList =
      marker ++ " a ".toList ++ marker ++ " b c".toList := by
    simp [List.append_assoc]
  constructor
  · have h1 := h.1
    rw [hre] at h1
    rw [h1]
    rfl
  · have h2 := h.2
    rw [hre] at h2
    rw [h2]
    rfl

/-! ## Claim C9 -/

/-- C9, confirmed: when the input path does not exist, the run exits with
status 1, surfaces exactly the one error message, and writes no Markdown;
when the path exists, the extraction pass always completes with exit
status 0 and no error — existence is the only fatal condition. -/
theorem c9_confirmed :
    (∀ lines, mainRun false lines =
      { exitCode := 1, errors := [errFileMsg], output := [] }) ∧
    (∀ lines, (mainRun true lines).exitCode = 0 ∧
      (mainRun true lines).errors = []) := by
  exact ⟨fun lines => rfl, fun lines => ⟨rfl, rfl⟩⟩


/-! ## A branch-by-branch characterization of one loop step -/

/-- Everything any branch of `docStep` can do, with the guard facts each
later proof needs: the neutral disjunct covers every branch that changes
no flag and emits nothing front-matter-related. -/
def StepShape (s : DocState) (l : List Char) : Prop :=
  (∃ es, docStep s l = ({ s with i := s.i + 1 }, es) ∧
      es.all (fun e => !(e.isTitle || e.isAuthor || e.isDate)) = true) ∨
  (s.i + 1 < 6 ∧ matchTitle l = true ∧
    docStep s l = ({ s with i := s.i + 1, yaml := 1, module := true },
      [Emit.title (titleSub l)])) ∨
  (s.i + 1 < 5 ∧ s.yaml = 1 ∧
    docStep s l = ({ s with i := s.i + 1, yaml := s.yaml + 1 },
      [Emit.author l])) ∨
  (s.i + 1 < 5 ∧ s.yaml = 2 ∧ matchDate l = true ∧
    docStep s l = ({ s with i := s.i + 1, yaml := s.yaml + 1 },
      [Emit.date l])) ∨
  (s.module = true ∧
    docStep s l = ({ s with i := s.i + 1, module := false }, [])) ∨
  (docStep s l = ({ s with i := s.i + 1, clss := true },
      [Emit.classHead (classSub l)])) ∨
  (s.clss = true ∧
    docStep s l = ({ s with i := s.i + 1, func := true },
      [Emit.defHead (defSub l)])) ∨
  (s.func = true ∧ s.module = false ∧
    docStep s l = ({ s with i := s.i + 1, funcdoc := true, func := false },
      [Emit.blank])) ∨
  (docStep s l = ({ s with i := s.i + 1, func := false },
      [Emit.funcInline (inlineDocSub l)])) ∨
  (docStep s l = ({ s with i := s.i + 1, funcdoc := false, func := false },
      []))

theorem docStep_shape (s : DocState) (l : List Char) : StepShape s l := by
  unfold StepShape docStep
  by_cases g1 : s.i + 1 < 6 ∧ matchTitle l = true
  · rw [if_pos g1]
    exact Or.inr (Or.inl ⟨g1.1, g1.2, rfl⟩)
  · rw [if_neg g1]
    by_cases g2 : s.i + 1 < 5 ∧ s.yaml = 1
    · rw [if_pos g2]
      exact Or.inr (Or.inr (Or.inl ⟨g2.1, g2.2, rfl⟩))
    · rw [if_neg g2]
      by_cases g3 : s.i + 1 < 5 ∧ s.yaml = 2 ∧ matchDate l = true
      · rw [if_pos g3]
        exact Or.inr (Or.inr (Or.inr (Or.inl ⟨g3.1, g3.2.1, g3.2.2, rfl⟩)))
      · rw [if_neg g3]
        by_cases g4 : s.module = true ∧ matchTripleStart l = true
        · rw [if_pos g4]
          exact Or.inr (Or.inr (Or.inr (Or.inr (Or.inl ⟨g4.1, rfl⟩))))
        · rw [if_neg g4]
          by_cases g5 : s.module = true
          · rw [if_pos g5]
            exact Or.inl ⟨[Emit.moduleLine l], rfl, rfl⟩
          · rw [if_neg g5]
            by_cases g6 : matchClass l = true
            · rw [if_pos g6]
              exact Or.inr (Or.inr (Or.inr (Or.inr (Or.inr (Or.inl rfl)))))
            · rw [if_neg g6]
              by_cases g7 : s.clss = true ∧ matchInlineDoc l = true
              · rw [if_pos g7]
                exact Or.inl ⟨[Emit.classDoc (inlineDocSub l)], rfl, rfl⟩
              · rw [if_neg g7]
                by_cases g8 : s.clss = true ∧ matchDef l = true
                · rw [if_pos g8]
                  exact Or.inr (Or.inr (Or.inr (Or.inr (Or.inr (Or.inr
                    (Or.inl ⟨g8.1, rfl⟩))))))
                · rw [if_neg g8]
                  by_cases g9 : s.func = true ∧ matchOpen79 l = true
                  · rw [if_pos g9]
                    exact Or.inr (Or.inr (Or.inr (Or.inr (Or.inr (Or.inr
                      (Or.inr (Or.inl ⟨g9.1, by simpa using g5, rfl⟩)))))))
                  · rw [if_neg g9]
                    by_cases g10 : s.func = true ∧ matchInline79 l = true
                    · rw [if_pos g10]
                      exact Or.inr (Or.inr (Or.inr (Or.inr (Or.inr (Or.inr
                        (Or.inr (Or.inr (Or.inl rfl))))))))
                    · rw [if_neg g10]
                      by_cases g11 : s.funcdoc = true
                      · rw [if_pos g11]
                        by_cases g12 : matchArgsHeader l = true
                        · rw [if_pos g12]
                          exact Or.inl ⟨[Emit.argsHead], rfl, rfl⟩
                        · rw [if_neg g12]
                          by_cases g13 : matchArg1 l = true
                          · rw [if_pos g13]
                            exact Or.inl ⟨[Emit.argEntry (argNameSub l)
                              (argDescSub l)], rfl, rfl⟩
                          · rw [if_neg g13]
                            by_cases g14 : matchArg2 l = true
                            · rw [if_pos g14]
                              exact Or.inl ⟨[Emit.argEntry2 (wsNameSub l)
                                (argDesc2Sub l)], rfl, rfl⟩
                            · rw [if_neg g14]
                              by_cases g15 : matchDocClose l = true
                              · rw [if_pos g15]
                                exact Or.inr (Or.inr (Or.inr (Or.inr (Or.inr
                                  (Or.inr (Or.inr (Or.inr (Or.inr rfl))))))))
                              · rw [if_neg g15]
                                exact Or.inl ⟨[Emit.funcPass (strip79 l)],
                                  rfl, rfl⟩
                      · rw [if_neg g11]
                        by_cases g16 : matchLiterate l = true
                        · rw [if_pos g16]
                          exact Or.inl ⟨[Emit.literate (litCore l)], rfl, rfl⟩
                        · rw [if_neg g16]
                          exact Or.inl ⟨[], rfl, rfl⟩

/-- Every branch of the loop increments the line counter. -/
theorem docStep_i (s : DocState) (l : List Char) :
    (docStep s l).1.i = s.i + 1 := by
  rcases docStep_shape s l with ⟨es, heq, -⟩ | ⟨-, -, heq⟩ | ⟨-, -, heq⟩ |
    ⟨-, -, -, heq⟩ | ⟨-, heq⟩ | heq | ⟨-, heq⟩ | ⟨-, -, heq⟩ | heq | heq <;>
    rw [heq]

/-! ## Claim C4 -/

/-- The inductive invariant behind the amended claim C4: `funcdoc` needs
three prior lines (class, def, opener), `func` needs two and a class body,
`clss` needs one, and the module and function-description flags are never
simultaneously true. -/
def InvC4 (s : DocState) : Prop :=
  (s.funcdoc = true → 3 ≤ s.i) ∧
  (s.func = true → s.clss = true ∧ 2 ≤ s.i) ∧
  (s.clss = true → 1 ≤ s.i) ∧
  ¬(s.module = true ∧ s.funcdoc = true)

theorem docStep_inv (s : DocState) (l : List Char) (hs : InvC4 s)
    (hline : s.i + 1 < 6 → 4 ≤ s.i + 1 → matchTitle l = false) :
    InvC4 (docStep s l).1 := by
  obtain ⟨h1, h2, h3, h4⟩ := hs
  rcases docStep_shape s l with ⟨es, heq, -⟩ | ⟨hi6, hT, heq⟩ |
    ⟨-, -, heq⟩ | ⟨-, -, -, heq⟩ | ⟨-, heq⟩ | heq | ⟨hcl, heq⟩ |
    ⟨hfn, hmo, heq⟩ | heq | heq <;> rw [heq] <;> unfold InvC4 <;> dsimp only
  · -- neutral branch: flags unchanged
    exact ⟨fun hf => by have := h1 hf; omega,
      fun hf => ⟨(h2 hf).1, by have := (h2 hf).2; omega⟩,
      fun hc => by have := h3 hc; omega, h4⟩
  · -- title branch
    refine ⟨fun hf => by have := h1 hf; omega,
      fun hf => ⟨(h2 hf).1, by have := (h2 hf).2; omega⟩,
      fun hc => by have := h3 hc; omega, ?_⟩
    rintro ⟨-, hf⟩
    have hfalse := hline hi6 (by have := h1 hf; omega)
    rw [hfalse] at hT
    exact Bool.noConfusion hT
  · exact ⟨fun hf => by have := h1 hf; omega,
      fun hf => ⟨(h2 hf).1, by have := (h2 hf).2; omega⟩,
      fun hc => by have := h3 hc; omega, h4⟩
  · exact ⟨fun hf => by have := h1 hf; omega,
      fun hf => ⟨(h2 hf).1, by have := (h2 hf).2; omega⟩,
      fun hc => by have := h3 hc; omega, h4⟩
  · -- module close
    exact ⟨fun hf => by have := h1 hf; omega,
      fun hf => ⟨(h2 hf).1, by have := (h2 hf).2; omega⟩,
      fun hc => by have := h3 hc; omega, fun h => Bool.noConfusion h.1⟩
  · -- class heading
    exact ⟨fun hf => by have := h1 hf; omega,
      fun hf => ⟨rfl, by have := (h2 hf).2; omega⟩,
      fun _ => by omega, h4⟩
  · -- def heading
    exact ⟨fun hf => by have := h1 hf; omega,
      fun _ => ⟨hcl, by have := h3 hcl; omega⟩,
      fun hc => by have := h3 hc; omega, h4⟩
  · -- docstring opener: funcdoc set, but the module flag is false here
    exact ⟨fun _ => by have := (h2 hfn).2; omega,
      fun hf => Bool.noConfusion hf,
      fun hc => by have := h3 hc; omega,
      fun h => by rw [hmo] at h; exact Bool.noConfusion h.1⟩
  · -- dead inline branch
    exact ⟨fun hf => by have := h1 hf; omega,
      fun hf => Bool.noConfusion hf,
      fun hc => by have := h3 hc; omega, h4⟩
  · -- docstring close
    exact ⟨fun hf => Bool.noConfusion hf, fun hf => Bool.noConfusion hf,
      fun hc => by have := h3 hc; omega, fun h => Bool.noConfusion h.2⟩

theorem docRunFrom_inv (ls : List (List Char)) :
    ∀ s : DocState, InvC4 s →
    (∀ j l, ls.get? j = some l → s.i + j + 1 < 6 → 4 ≤ s.i + j + 1 →
      matchTitle l = false) →
    InvC4 (docRunFrom s ls).1 := by
  induction ls with
  | nil => intro s hs _; simpa [docRunFrom] using hs
  | cons l ls ih =>
    intro s hs hl
    have hstep : InvC4 (docStep s l).1 :=
      docStep_inv s l hs fun hi6 hi4 => hl 0 l rfl (by omega) (by omega)
    have hi' : (docStep s l).1.i = s.i + 1 := docStep_i s l
    show InvC4 (docRunFrom (docStep s l).1 ls).1
    apply ih _ hstep
    intro j l' hj h6 h4
    rw [hi'] at h6 h4
    exact hl (j + 1) l' (by simpa using hj) (by omega) (by omega)

/-- The input that breaks the claimed invariant: a class, a def, a
docstring opener, then a module-opening marker at position 4. -/
def linesC4 : List (List Char) :=
  ["class A:".toList, "    def f():".toList, "        ".toList ++ trip,
   trip ++ "Xy".toList]

/-- C4, counterexample: after these four lines, `inModuleBlock` and
`inFunctionDescription` are BOTH true — the module-opening branch fires at
position 4 (the window `i < 6` is still open) while the function
description block opened at line 3 is still active. -/
theorem c4_counterexample :
    (docRun linesC4).1.module = true ∧ (docRun linesC4).1.funcdoc = true := by
  exact ⟨rfl, rfl⟩

/-- C4, amended: at most one of `inModuleBlock` and `inFunctionDescription`
is true after every prefix of the input, PROVIDED no line at position 4
or 5 matches the module-opening title pattern; the counterexample shows
the proviso is necessary.  (`inClassBody` remains unconstrained.) -/
theorem c4_amended (lines : List (List Char))
    (h4 : ∀ l, lines.get? 3 = some l → matchTitle l = false)
    (h5 : ∀ l, lines.get? 4 = some l → matchTitle l = false) :
    ∀ n, ¬((docRun (lines.take n)).1.module = true ∧
      (docRun (lines.take n)).1.funcdoc = true) := by
  intro n
  have hinv : InvC4 (docRunFrom initState (lines.take n)).1 := by
    apply docRunFrom_inv (lines.take n) initState
    · exact ⟨fun h => Bool.noConfusion h, fun h => Bool.noConfusion h,
        fun h => Bool.noConfusion h, fun h => Bool.noConfusion h.1⟩
    · intro j l hj hlt hge
      have hjn : j < n := by
        have := List.get?_eq_some.mp hj
        have hlen := this.1
        rw [List.length_take] at hlen
        omega
      rw [List.get?_take hjn] at hj
      have hi0 : initState.i = 0 := rfl
      rw [hi0] at hlt hge
      have hj34 : j = 3 ∨ j = 4 := by omega
      rcases hj34 with rfl | rfl
      · exact h4 l hj
      · exact h5 l hj
  exact hinv.2.2.2

/-- Witness for `c4_amended` on the double-quote scenario-A input (its
lines at positions 4 and 5 are the bare closing marker and `class Foo:`,
neither of which opens a module block). -/
theorem c4_amended_witness :
    ¬((docRun (scenarioADq.take 11)).1.module = true ∧
      (docRun (scenarioADq.take 11)).1.funcdoc = true) := by
  apply c4_amended scenarioADq
  · intro l h
    rw [show scenarioADq.get? 3 = some trip from rfl] at h
    injection h with h'
    rw [← h']
    rfl
  · intro l h
    rw [show scenarioADq.get? 4 = some ("class Foo:".toList) from rfl] at h
    injection h with h'
    rw [← h']
    rfl

/-! ## Claim C7 -/

theorem prefix_app_cases (xs ys zs : List Emit) (h : xs <+: ys ++ zs) :
    xs <+: ys ∨ ∃ t, xs = ys ++ t ∧ t <+: zs := by
  induction ys generalizing xs with
  | nil => exact Or.inr ⟨xs, rfl, h⟩
  | cons y ys ih =>
    cases xs with
    | nil => exact Or.inl (List.nil_prefix)
    | cons x xt =>
      obtain ⟨u, hu⟩ := h
      rw [List.cons_append, List.cons_append] at hu
      have hx : x = y := ((List.cons.injEq _ _ _ _).mp hu).1
      have hrest : xt ++ u = ys ++ zs := ((List.cons.injEq _ _ _ _).mp hu).2
      rcases ih xt ⟨u, hrest⟩ with h1 | ⟨t, ht, htp⟩
      · obtain ⟨v, hv⟩ := h1
        exact Or.inl ⟨v, by rw [List.cons_append, hv, hx]⟩
      · exact Or.inr ⟨t, by rw [List.cons_append, ht, hx], htp⟩

theorem neutral_no_fm (es : List Emit)
    (h : es.all (fun e => !(e.isTitle || e.isAuthor || e.isDate)) = true) :
    hasTitle es = false ∧ hasAuthor es = false ∧ hasDate es = false := by
  rw [List.all_eq_true] at h
  refine ⟨?_, ?_, ?_⟩ <;>
    (simp only [hasTitle, hasAuthor, hasDate, List.any_eq_false]
     intro e he
     have he2 := h e he
     simp only [Bool.not_eq_true', Bool.or_eq_false_iff] at he2
     simp [he2.1.1, he2.1.2, he2.2])

theorem all_of_front (p : Emit → Bool) (a b : List Emit) (h : a <+: b)
    (hb : b.all p = true) : a.all p = true := by
  rw [List.all_eq_true] at hb ⊢
  exact fun x hx => hb x (h.subset hx)

/-- The front-matter monotonicity conclusion for one emit prefix. -/
def MonoGoal (s : DocState) (es' : List Emit) : Prop :=
  (hasAuthor es' = true → 1 ≤ s.yaml ∨ hasTitle es' = true) ∧
  (hasDate es' = true → 2 ≤ s.yaml ∨ hasAuthor es' = true)

/-- The shared argument for every branch that emits nothing front-matter
related and leaves `yaml` unchanged. -/
theorem monoGoal_neutral (s st : DocState) (rest e : List Emit)
    (es' : List Emit) (hyaml : st.yaml = s.yaml)
    (hneutral : e.all (fun x => !(x.isTitle || x.isAuthor || x.isDate)) = true)
    (hp : es' <+: e ++ rest)
    (iht : ∀ t, t <+: rest → MonoGoal st t) :
    MonoGoal s es' := by
  rcases prefix_app_cases es' _ _ hp with hp1 | ⟨t, rfl, htp⟩
  · obtain ⟨-, hA, hD'⟩ :=
      neutral_no_fm es' (all_of_front _ es' e hp1 hneutral)
    exact ⟨fun h => by rw [h] at hA; exact Bool.noConfusion hA,
      fun h => by rw [h] at hD'; exact Bool.noConfusion hD'⟩
  · obtain ⟨-, hA, hD'⟩ := neutral_no_fm e hneutral
    have iht' := iht t htp
    unfold MonoGoal at iht'
    rw [hyaml] at iht'
    constructor
    · intro ha
      rw [show hasAuthor (e ++ t) = (hasAuthor e || hasAuthor t) from
        List.any_append, hA, Bool.false_or] at ha
      rcases iht'.1 ha with hy' | ht'
      · exact Or.inl hy'
      · refine Or.inr ?_
        rw [show hasTitle (e ++ t) = (hasTitle e || hasTitle t) from
          List.any_append, ht']
        simp
    · intro hd
      rw [show hasDate (e ++ t) = (hasDate e || hasDate t) from
        List.any_append, hD', Bool.false_or] at hd
      rcases iht'.2 hd with hy' | ht'
      · exact Or.inl hy'
      · refine Or.inr ?_
        rw [show hasAuthor (e ++ t) = (hasAuthor e || hasAuthor t) from
          List.any_append, ht']
        simp

theorem docRunFrom_mono (ls : List (List Char)) :
    ∀ (s : DocState) (es' : List Emit), es' <+: (docRunFrom s ls).2 →
      MonoGoal s es' := by
  induction ls with
  | nil =>
    intro s es' hp
    have hnil : es' = [] := by simpa [docRunFrom] using hp
    subst hnil
    exact ⟨fun h => Bool.noConfusion h, fun h => Bool.noConfusion h⟩
  | cons l ls ih =>
    intro s es' hp
    have hrun : (docRunFrom s (l :: ls)).2 =
        (docStep s l).2 ++ (docRunFrom (docStep s l).1 ls).2 := rfl
    rw [hrun] at hp
    rcases docStep_shape s l with ⟨es, heq, hneutral⟩ | ⟨hi6, hT, heq⟩ |
      ⟨hi5, hy1, heq⟩ | ⟨hi5, hy2, hD, heq⟩ | ⟨hm, heq⟩ | heq | ⟨hcl, heq⟩ |
      ⟨hfn, hmo, heq⟩ | heq | heq
    · -- neutral branch
      rw [show (docStep s l).2 = es from by rw [heq]] at hp
      exact monoGoal_neutral s (docStep s l).1 _ es es'
        (by rw [heq]) hneutral hp (fun t htp => ih _ t htp)
    · -- title branch
      rw [show (docStep s l).2 = [Emit.title (titleSub l)] from
        by rw [heq]] at hp
      have hyst : (docStep s l).1.yaml = 1 := by rw [heq]
      rcases prefix_app_cases es' _ _ hp with hp1 | ⟨t, rfl, htp⟩
      · have hok : es'.all (fun x => !(x.isAuthor || x.isDate)) = true :=
          all_of_front _ es' _ hp1 rfl
        rw [List.all_eq_true] at hok
        constructor
        · intro ha
          simp only [hasAuthor, List.any_eq_true] at ha
          obtain ⟨e, he, hae⟩ := ha
          have he2 := hok e he
          simp [hae] at he2
        · intro hd
          simp only [hasDate, List.any_eq_true] at hd
          obtain ⟨e, he, hde⟩ := hd
          have he2 := hok e he
          simp [hde] at he2
      · constructor
        · intro _
          refine Or.inr ?_
          simp [hasTitle, List.any_append, Emit.isTitle]
        · intro hd
          have hd' : hasDate t = true := by
            simpa [hasDate, List.any_append, Emit.isDate] using hd
          rcases (ih _ t htp).2 hd' with hy' | hA
          · rw [hyst] at hy'
            omega
          · refine Or.inr ?_
            simpa [hasAuthor, List.any_append, Emit.isAuthor] using hA
    · -- author branch: yaml was 1
      rw [show (docStep s l).2 = [Emit.author l] from by rw [heq]] at hp
      rcases prefix_app_cases es' _ _ hp with hp1 | ⟨t, rfl, htp⟩
      · have hok : es'.all (fun x => !x.isDate) = true :=
          all_of_front _ es' _ hp1 rfl
        rw [List.all_eq_true] at hok
        constructor
        · intro _
          exact Or.inl (by omega)
        · intro hd
          simp only [hasDate, List.any_eq_true] at hd
          obtain ⟨e, he, hde⟩ := hd
          have he2 := hok e he
          simp [hde] at he2
      · exact ⟨fun _ => Or.inl (by omega),
          fun _ => Or.inr (by simp [hasAuthor, List.any_append,
            Emit.isAuthor])⟩
    · -- date branch: yaml was 2
      exact ⟨fun _ => Or.inl (by omega), fun _ => Or.inl (by omega)⟩
    · -- module close
      rw [show (docStep s l).2 = [] from by rw [heq]] at hp
      exact monoGoal_neutral s (docStep s l).1 _ [] es'
        (by rw [heq]) rfl hp (fun t htp => ih _ t htp)
    · -- class heading
      rw [show (docStep s l).2 = [Emit.classHead (classSub l)] from
        by rw [heq]] at hp
      exact monoGoal_neutral s (docStep s l).1 _
        [Emit.classHead (classSub l)] es' (by rw [heq]) rfl hp
        (fun t htp => ih _ t htp)
    · -- def heading
      rw [show (docStep s l).2 = [Emit.defHead (defSub l)] from
        by rw [heq]] at hp
      exact monoGoal_neutral s (docStep s l).1 _
        [Emit.defHead (defSub l)] es' (by rw [heq]) rfl hp
        (fun t htp => ih _ t htp)
    · -- docstring opener
      rw [show (docStep s l).2 = [Emit.blank] from by rw [heq]] at hp
      exact monoGoal_neutral s (docStep s l).1 _ [Emit.blank] es'
        (by rw [heq]) rfl hp (fun t htp => ih _ t htp)
    · -- dead inline branch
      rw [show (docStep s l).2 = [Emit.funcInline (inlineDocSub l)] from
        by rw [heq]] at hp
      exact monoGoal_neutral s (docStep s l).1 _
        [Emit.funcInline (inlineDocSub l)] es' (by rw [heq]) rfl hp
        (fun t htp => ih _ t htp)
    · -- docstring close
      rw [show (docStep s l).2 = [] from by rw [heq]] at hp
      exact monoGoal_neutral s (docStep s l).1 _ [] es'
        (by rw [heq]) rfl hp (fun t htp => ih _ t htp)

/-- C7, confirmed: front-matter emission is monotonic — in every prefix of
the emitted output, an author line is preceded by a title line and a date
line by an author line — and no line at position 6 or later can change the
front-matter stage or emit any front-matter line. -/
theorem c7_confirmed :
    (∀ (lines : List (List Char)) (es' : List Emit),
      es' <+: (docRun lines).2 →
      (hasAuthor es' = true → hasTitle es' = true) ∧
      (hasDate es' = true → hasAuthor es' = true)) ∧
    (∀ (s : DocState) (l : List Char), 5 ≤ s.i →
      (docStep s l).1.yaml = s.yaml ∧
      (docStep s l).2.all
        (fun e => !(e.isTitle || e.isAuthor || e.isDate)) = true) := by
  constructor
  · intro lines es' hp
    have h := docRunFrom_mono lines initState es' hp
    unfold MonoGoal at h
    rw [show initState.yaml = 0 from rfl] at h
    exact ⟨fun ha => (h.1 ha).resolve_left (by omega),
      fun hd => (h.2 hd).resolve_left (by omega)⟩
  · intro s l hi
    rcases docStep_shape s l with ⟨es, heq, hneutral⟩ | ⟨hi6, -, heq⟩ |
      ⟨hi5, -, heq⟩ | ⟨hi5, -, -, heq⟩ | ⟨-, heq⟩ | heq | ⟨-, heq⟩ |
      ⟨-, -, heq⟩ | heq | heq
    · exact ⟨by rw [heq], by rw [heq]; exact hneutral⟩
    · exact absurd hi6 (by omega)
    · exact absurd hi5 (by omega)
    · exact absurd hi5 (by omega)
    · exact ⟨by rw [heq], by rw [heq]; rfl⟩
    · exact ⟨by rw [heq], by rw [heq]; rfl⟩
    · exact ⟨by rw [heq], by rw [heq]; rfl⟩
    · exact ⟨by rw [heq], by rw [heq]; rfl⟩
    · exact ⟨by rw [heq], by rw [heq]; rfl⟩
    · exact ⟨by rw [heq], by rw [heq]; rfl⟩

/-- Witness for `c7_confirmed`: the two-element prefix of the scenario-A
emits holds an author line, so the theorem yields the title before it; and
a step at line position 8 leaves the stage counter unchanged. -/
theorem c7_witness :
    hasTitle [Emit.title ("Title".toList),
      Emit.author ("Author Name".toList)] = true ∧
    (docStep
      ({ i := 7, module := false, yaml := 1, clss := false, func := false,
         funcdoc := false }) ("Author Name".toList)).1.yaml = 1 := by
  constructor
  · exact (c7_confirmed.1 scenarioADq
      [Emit.title ("Title".toList), Emit.author ("Author Name".toList)]
      ⟨[Emit.date ("2024-01-01 notes".toList),
        Emit.classHead ("Foo".toList), Emit.classDoc ("One line.".toList),
        Emit.defHead ("bar(self)".toList), Emit.blank, Emit.argsHead,
        Emit.argEntry ['x'] ("the value".toList)], by rfl⟩).1 (by decide)
  · exact (c7_confirmed.2
      ({ i := 7, module := false, yaml := 1, clss := false, func := false,
         funcdoc := false }) ("Author Name".toList) (by decide)).1

/-! ## Claim C5 -/

theorem docRunFrom_nodate (ls : List (List Char)) :
    ∀ s : DocState, s.yaml ≤ s.i →
    (∀ j l, ls.get? j = some l → 2 ≤ s.i + j → s.i + j ≤ 3 →
      matchDate l = false) →
    (docRunFrom s ls).2.all (fun e => !e.isDate) = true := by
  induction ls with
  | nil => intro s _ _; rfl
  | cons l ls ih =>
    intro s hbound hd
    have hrun : (docRunFrom s (l :: ls)).2 =
        (docStep s l).2 ++ (docRunFrom (docStep s l).1 ls).2 := rfl
    rw [hrun, List.all_append, Bool.and_eq_true]
    have hd' : ∀ j l', ls.get? j = some l' → 2 ≤ (docStep s l).1.i + j →
        (docStep s l).1.i + j ≤ 3 → matchDate l' = false := by
      intro j l' hj h2 h3
      rw [docStep_i s l] at h2 h3
      exact hd (j + 1) l' (by simpa using hj) (by omega) (by omega)
    rcases docStep_shape s l with ⟨es, heq, hneutral⟩ | ⟨hi6, hT, heq⟩ |
      ⟨hi5, hy1, heq⟩ | ⟨hi5, hy2, hD, heq⟩ | ⟨hm, heq⟩ | heq | ⟨hcl, heq⟩ |
      ⟨hfn, hmo, heq⟩ | heq | heq
    · refine ⟨?_, ih _ (by rw [heq]; dsimp only; omega) hd'⟩
      rw [heq]
      dsimp only
      rw [List.all_eq_true] at hneutral ⊢
      intro e he
      have he2 := hneutral e he
      simp only [Bool.not_eq_true', Bool.or_eq_false_iff] at he2
      simp [he2.2]
    · exact ⟨by rw [heq]; rfl,
        ih _ (by rw [heq]; dsimp only; omega) hd'⟩
    · exact ⟨by rw [heq]; rfl,
        ih _ (by rw [heq]; dsimp only; omega) hd'⟩
    · -- the date branch cannot fire at all under the hypotheses
      exfalso
      have h2i : 2 ≤ s.i := by omega
      have h3i : s.i ≤ 3 := by omega
      -- the current line sits at relative index , absolute position s.i + 1,
      -- but `hd` speaks about the line at offset 0
      have := hd 0 l rfl (by omega) (by omega)
      rw [this] at hD
      exact Bool.noConfusion hD
    · exact ⟨by rw [heq]; rfl,
        ih _ (by rw [heq]; dsimp only; omega) hd'⟩
    · exact ⟨by rw [heq]; rfl,
        ih _ (by rw [heq]; dsimp only; omega) hd'⟩
    · exact ⟨by rw [heq]; rfl,
        ih _ (by rw [heq]; dsimp only; omega) hd'⟩
    · exact ⟨by rw [heq]; rfl,
        ih _ (by rw [heq]; dsimp only; omega) hd'⟩
    · exact ⟨by rw [heq]; rfl,
        ih _ (by rw [heq]; dsimp only; omega) hd'⟩
    · exact ⟨by rw [heq]; rfl,
        ih _ (by rw [heq]; dsimp only; omega) hd'⟩

/-- C5, confirmed: the date branch — the only `print` site whose text
contains the closing YAML fence — can fire only at positions 3 or 4, so
when no line there matches the year pattern, no date emit (and hence no
closing fence) is ever produced, even when the title stage fired; and the
transition that closes the module block emits nothing at all. -/
theorem c5_confirmed (lines : List (List Char))
    (h3 : ∀ l, lines.get? 2 = some l → matchDate l = false)
    (h4 : ∀ l, lines.get? 3 = some l → matchDate l = false)
    (_htitle : hasTitle (docRun lines).2 = true) :
    (docRun lines).2.all (fun e => !e.isDate) = true ∧
    (∀ (s : DocState) (l : List Char), s.module = true →
      matchTripleStart l = true → matchTitle l = false →
      ¬(s.i + 1 < 5 ∧ s.yaml = 1) →
      ¬(s.i + 1 < 5 ∧ s.yaml = 2 ∧ matchDate l = true) →
      (docStep s l).2 = []) := by
  constructor
  · apply docRunFrom_nodate lines initState le_rfl
    intro j l hj h2 h3'
    rw [show initState.i = 0 from rfl] at h2 h3'
    have hj23 : j = 2 ∨ j = 3 := by omega
    rcases hj23 with rfl | rfl
    · exact h3 l hj
    · exact h4 l hj
  · intro s l hm htr hT n2 n3
    have n1 : ¬(s.i + 1 < 6 ∧ matchTitle l = true) :=
      fun h => by rw [hT] at h; exact Bool.noConfusion h.2
    simp only [docStep]
    rw [if_neg n1, if_neg n2, if_neg n3, if_pos ⟨hm, htr⟩]

/-- Witness for `c5_confirmed`: a run whose title fires but whose window
lines carry no `20`-year pattern never emits a date (so never a closing
fence), and a concrete module-closing step emits nothing. -/
theorem c5_witness :
    ((docRun [trip ++ "Title".toList, "Author Name".toList,
      "no digits here".toList, "x".toList, "y".toList]).2.all
      (fun e => !e.isDate) = true) ∧
    (docStep
      ({ i := 10, module := true, yaml := 3, clss := false, func := false,
         funcdoc := false }) trip).2 = [] := by
  have h := c5_confirmed [trip ++ "Title".toList, "Author Name".toList,
      "no digits here".toList, "x".toList, "y".toList]
    (by intro l hl; injection hl with hl'; rw [← hl']; rfl)
    (by intro l hl; injection hl with hl'; rw [← hl']; rfl)
    (by rfl)
  refine ⟨h.1, ?_⟩
  exact h.2 _ trip rfl rfl (by decide)
    (fun hh => absurd hh.1 (by decide))
    (fun hh => absurd hh.1 (by decide))
